import Mathlib

/-!
Shallow embedding of the domain-risk-evaluation backend (Go) in Lean 4,
with theorems checking the natural-language specification against the code.

Conventions of the embedding:
* Go `string` is Lean `String`; byte-level operations are modelled on the
  character list (all inputs of interest are ASCII).
* Go `int` is `Int`; Go `float64` is `ℚ` (every constant in the scored paths
  is an exact decimal, and the only operations used are comparison, `min`,
  clamping and two-decimal rounding, which are exact).
* `map[string]T` built first-wins is an association list.
* The `isCommonWord` dictionary predicate is declared by the scorer but its
  definition is not part of the sources; following the spec ("a heuristic
  predicate available to the scorer; if no dictionary is available, treat it
  as always false") it is a parameter of the scoring functions.
-/

namespace DomainRisk

/-- Go `strings.TrimSpace` on the character list (whitespace at both ends). -/
def goTrimList (l : List Char) : List Char :=
  ((l.dropWhile Char.isWhitespace).reverse.dropWhile Char.isWhitespace).reverse

/-- Go `strings.TrimSpace`. -/
def goTrim (s : String) : String :=
  String.mk (goTrimList s.toList)

/-- Go `strings.ToLower` (the inputs of interest are ASCII). -/
def goToLower (s : String) : String :=
  String.mk (s.toList.map Char.toLower)

/-- Go `strings.ToUpper` (the inputs of interest are ASCII). -/
def goToUpper (s : String) : String :=
  String.mk (s.toList.map Char.toUpper)

/-- Go `strings.Split` with a one-character separator. -/
def splitOnChar (c : Char) (s : String) : List String :=
  ((s.toList).splitOnP (fun d => d = c)).map String.mk

/-- Drop the first `n` characters of a string. -/
def goDropChars (s : String) (n : Nat) : String :=
  String.mk (s.toList.drop n)

/-- Go `strings.HasPrefix`. -/
def goStartsWith (s p : String) : Bool :=
  p.toList.isPrefixOf s.toList

/-- Go `strings.HasSuffix`. -/
def goEndsWith (s p : String) : Bool :=
  p.toList.isSuffixOf s.toList

/-- Characters kept by `sanitizeLabel` (backend/internal/scoring/trademark.go). -/
def isLowerAlnum (c : Char) : Bool :=
  (('a' ≤ c) && (c ≤ 'z')) || (('0' ≤ c) && (c ≤ '9'))

/-- `sanitizeLabel` from backend/internal/scoring/trademark.go: lowercase,
trim, keep only `[a-z0-9]`. -/
def sanitizeLabel (label : String) : String :=
  String.mk (((goToLower (goTrim label)).toList).filter isLowerAlnum)

/-- Characters removed by `cleanToken`'s replacer (part_008, api package). -/
def isSpaceHyphenUnderscore (c : Char) : Bool :=
  c = ' ' || c = '-' || c = '_'

/-- `cleanToken` from the api package (part_008): lowercase, trim, remove
spaces, hyphens and underscores. -/
def cleanToken (value : String) : String :=
  String.mk (((goToLower (goTrim value)).toList).filter (fun c => !(isSpaceHyphenUnderscore c)))

/-- `store.Mark` (backend/internal/store/models.go), the fields used by scoring. -/
structure Mark where
  serial : String
  mark : String
  markNoSpaces : String
  isFanciful : Bool
deriving Repr, DecidableEq

/-- `scoring.TrademarkResult` (backend/internal/scoring/trademark.go). -/
structure TrademarkResult where
  score : Int
  type : String
  matchedTrademark : String
  confidence : ℚ
deriving Repr, DecidableEq

/-- `match.DomainProfile` (backend/internal/match/normalize.go). -/
structure DomainProfile where
  original : String
  host : String
  core : String
  brandToken : String
  tokens : List String
  altSplits : List String
deriving Repr, DecidableEq

/-- `defaultPopularTokens` (scoring package segment of part_008). -/
def defaultPopularTokens : List String :=
  ["amazon", "meta", "facebook", "google", "youtube", "instagram", "twitter",
   "tesla", "microsoft", "apple", "netflix", "paypal", "uber", "lyft",
   "salesforce", "nike", "adidas", "cocacola", "pepsi", "tiktok", "snapchat",
   "beyonce", "taylor", "swift", "kanye", "elon", "rihanna", "drake",
   "madonna", "oprah", "zuckerberg", "musk"]

/-- `scoring.IsPopularToken` (part_008): sanitize, then membership in the
process-wide popular-token set. The set is a parameter of the model; the
process default is `defaultPopularTokens`. -/
def IsPopularToken (popular : List String) (token : String) : Bool :=
  let normalized := sanitizeLabel token
  if normalized = "" then false else popular.contains normalized

/-- `buildExactMap` (trademark.go): first-inserted mark wins on key collision,
empty sanitized keys are skipped. -/
def buildExactMap (marks : List Mark) : List (String × Mark) :=
  marks.foldl
    (fun result m =>
      let key := sanitizeLabel m.markNoSpaces
      if key = "" then result
      else if result.any (fun p => p.1 = key) then result
      else result ++ [(key, m)])
    []

/-- `trademarkIndex` (trademark.go): exact-match map plus seed set. -/
structure TrademarkIndex where
  exact : List (String × Mark)
  seeds : List String
deriving Repr, DecidableEq

/-- `buildTrademarkIndex` (trademark.go). -/
def buildTrademarkIndex (marks : List Mark) (seeds : List String) : TrademarkIndex :=
  { exact := buildExactMap marks, seeds := seeds }

/-- `trademarkIndex.lookupExact` (trademark.go). -/
def TrademarkIndex.lookupExact (idx : TrademarkIndex) (token : String) : Option Mark :=
  (idx.exact.find? (fun p => p.1 = token)).map Prod.snd

/-- `trademarkIndex.classify` (trademark.go): seeds and the fanciful flag give
fanciful, then the popular-token set, else generic. -/
def TrademarkIndex.classify (idx : TrademarkIndex) (popular : List String) (mark : Mark) : String :=
  let key := sanitizeLabel mark.markNoSpaces
  if idx.seeds.contains key then "fanciful"
  else if mark.isFanciful then "fanciful"
  else if IsPopularToken popular key then "popular"
  else "generic"

/-- `extractSLD` (trademark.go): second-from-last label of the profile's
host, with no ccTLD adjustment. -/
def extractSLD (profile : DomainProfile) : String :=
  let host := goToLower (goTrim profile.host)
  if host = "" then ""
  else
    let parts := splitOnChar '.' host
    if parts.length < 2 then host
    else parts.getD (parts.length - 2) ""

/-- `TrademarkScorer.Score` (trademark.go). `isCommon` is the dictionary
predicate (`isCommonWord`), `popular` the process-wide popular-token set. -/
def TrademarkScorer.Score (idx : TrademarkIndex) (popular : List String)
    (isCommon : String → Bool) (profile : DomainProfile) : TrademarkResult :=
  let sld := sanitizeLabel (extractSLD profile)
  if sld = "" then ⟨0, "none", "", mkRat 1 5⟩
  else
    match idx.lookupExact sld with
    | some entry =>
        let markType := idx.classify popular entry
        let common := isCommon sld
        if markType = "fanciful" then
          if common then ⟨2, "generic", entry.mark, mkRat 3 5⟩
          else if IsPopularToken popular sld then ⟨3, "popular", entry.mark, mkRat 9 10⟩
          else ⟨5, markType, entry.mark, 1⟩
        else if markType = "popular" then
          if common then ⟨2, markType, entry.mark, mkRat 3 4⟩
          else ⟨3, markType, entry.mark, mkRat 9 10⟩
        else
          if common then ⟨2, "generic", entry.mark, mkRat 3 5⟩
          else ⟨0, markType, entry.mark, mkRat 2 5⟩
    | none => ⟨0, "none", "", mkRat 1 5⟩

/-- Truncate a string at the first occurrence of a character (the sequential
separator truncation of `NormalizeDomain`, backend/internal/match/normalize.go). -/
def truncAtChar (s : String) (c : Char) : String :=
  String.mk (s.toList.takeWhile (fun d => d ≠ c))

/-- `strings.Trim(lower, ".")`: drop leading and trailing dots. -/
def trimDots (s : String) : String :=
  String.mk (((s.toList.dropWhile (fun c => c = '.')).reverse.dropWhile (fun c => c = '.')).reverse)

/-- Separators of `splitTokens` (normalize.go): `-`, `_`, `+` and digits. -/
def isTokenSep (c : Char) : Bool :=
  c = '-' || c = '_' || c = '+' || (('0' ≤ c) && (c ≤ '9'))

/-- `splitTokens` (normalize.go): replace `_` by `-`, split on separator runs,
keep nonempty trimmed fields, fall back to the replaced core. -/
def splitTokens (core : String) : List String :=
  let replaced := String.mk (core.toList.map (fun c => if c = '_' then '-' else c))
  let parts := ((replaced.toList).splitOnP isTokenSep).map String.mk
  let out := (parts.map goTrim).filter (fun p => p ≠ "")
  if out = [] then [replaced] else out

/-- `genericSuffixes` (normalize.go). -/
def genericSuffixes : List String :=
  ["support", "help", "shop", "store", "online", "tech", "services", "blog",
   "app", "world", "global", "labs", "care", "pay", "group", "cloud", "ai",
   "hub", "zone", "plus"]

/-- `appendUnique` (normalize.go). -/
def appendUnique (s : List String) (v : String) : List String :=
  if v = "" then s else if s.contains v then s else s ++ [v]

/-- `compoundSplits` (normalize.go): strip a generic suffix from either end
when the remaining part keeps more than two characters. -/
def compoundSplits (token : String) : List String :=
  genericSuffixes.foldl
    (fun splits suffix =>
      let splits1 :=
        if goEndsWith token suffix && decide (token.toList.length > suffix.toList.length + 2) then
          let front := String.mk (token.toList.take (token.toList.length - suffix.toList.length))
          appendUnique (appendUnique splits front) suffix
        else splits
      if goStartsWith token suffix && decide (token.toList.length > suffix.toList.length + 2) then
        let rest := String.mk (token.toList.drop suffix.toList.length)
        appendUnique (appendUnique splits1 suffix) rest
      else splits1)
    []

/-- `match.NormalizeDomain` (normalize.go). -/
def NormalizeDomain (input : String) : DomainProfile :=
  let lower0 := goToLower (goTrim input)
  let lower1 := if goStartsWith lower0 "https://" then goDropChars lower0 8
                else if goStartsWith lower0 "http://" then goDropChars lower0 7
                else lower0
  let lower2 := truncAtChar (truncAtChar (truncAtChar lower1 '/') '?') '#'
  let lower3 := (splitOnChar '@' lower2).getLastD lower2
  let lower4 := trimDots lower3
  let lower5 := if goStartsWith lower4 "www." then goDropChars lower4 4 else lower4
  let host := truncAtChar lower5 ':'
  let segments0 := ((splitOnChar '.' host).map goTrim).filter (fun s => s ≠ "")
  let segments := if segments0.length > 3 then segments0.drop (segments0.length - 3) else segments0
  let core :=
    if segments.length = 1 then segments.getD 0 ""
    else if segments.length ≥ 2 then
      let tld := segments.getD (segments.length - 1) ""
      let second := segments.getD (segments.length - 2) ""
      if tld.length = 2 && decide (segments.length ≥ 3) then segments.getD (segments.length - 3) ""
      else second
    else host
  let brandToken0 := String.mk (core.toList.filter isLowerAlnum)
  let brandToken := if brandToken0 = "" then core else brandToken0
  { original := input, host := host, core := core, brandToken := brandToken,
    tokens := splitTokens core, altSplits := compoundSplits brandToken }

/-- `strings.Contains(hay, needle)` on character lists. -/
def goContainsAux (needle : List Char) : List Char → Bool
  | [] => needle.isEmpty
  | c :: rest => needle.isPrefixOf (c :: rest) || goContainsAux needle rest

/-- Go `strings.Contains`. -/
def goContains (hay needle : String) : Bool :=
  goContainsAux needle.toList hay.toList

/-- `scoring.ViceResult` (part_012). -/
structure ViceResult where
  score : Int
  categories : List String
  confidence : ℚ
deriving Repr, DecidableEq

/-- `ViceScorer` (part_012): severity-tiered term lists. A missing severity is
the empty list, mirroring the Go map's zero value. -/
structure ViceScorer where
  terms : Nat → List String

/-- `normalizeTerm` composed with `stripDiacritics` (part_012): lowercase,
trim, then keep only `[a-z0-9]` (spaces, hyphens, underscores and every other
character are dropped). -/
def normalizeTerm (term : String) : String :=
  String.mk ((goTrim (goToLower term)).toList.filter isLowerAlnum)

/-- `confidenceForSeverity` (part_012). -/
def confidenceForSeverity (severity : Int) : ℚ :=
  if severity = 5 ∨ severity = 4 then mkRat 19 20
  else if severity = 3 then mkRat 4 5
  else if severity = 2 then mkRat 7 10
  else if severity = 1 then mkRat 3 5
  else mkRat 99 100

/-- The hit collection of one severity tier in `ViceScorer.Score` (part_012):
nonempty terms that are substrings of the sanitized host or brand token. -/
def hitsAt (v : ViceScorer) (domain brand : String) (severity : Nat) : List String :=
  (v.terms severity).filter (fun term => term ≠ "" && (goContains domain term || goContains brand term))

/-- The byte-lexicographic order of Go `sort.Strings`, on character lists
(UTF-8 byte order coincides with code-point order). -/
def charListLe : List Char → List Char → Bool
  | [], _ => true
  | _ :: _, [] => false
  | a :: as, b :: bs =>
      if a.toNat < b.toNat then true
      else if a.toNat = b.toNat then charListLe as bs
      else false

/-- The string order used by `sort.Strings`. -/
def strLe (a b : String) : Prop := charListLe a.toList b.toList = true

instance : DecidableRel strLe := fun a b =>
  inferInstanceAs (Decidable (charListLe a.toList b.toList = true))

/-- One step of `dedupe`'s consecutive-duplicate removal (part_012); `prev`
starts as the empty string, mirroring the Go zero value. -/
def dedupeGo (prev : String) : List String → List String
  | [] => []
  | x :: xs => if x = prev then dedupeGo prev xs else x :: dedupeGo x xs

/-- `dedupe` (part_012): sort ascending, then drop consecutive duplicates. -/
def goDedupe (l : List String) : List String :=
  if l = [] then l else dedupeGo "" (List.insertionSort strLe l)

/-- The descending severity loop of `ViceScorer.Score` (part_012). -/
def viceLoop (v : ViceScorer) (domain brand : String) : Nat → ViceResult
  | 0 => ⟨0, [], confidenceForSeverity 0⟩
  | severity + 1 =>
      let hits := hitsAt v domain brand (severity + 1)
      if hits ≠ [] then
        ⟨(severity + 1 : Nat), goDedupe hits, confidenceForSeverity (severity + 1 : Nat)⟩
      else viceLoop v domain brand severity

/-- `ViceScorer.Score` (part_012). -/
def ViceScorer.Score (v : ViceScorer) (profile : DomainProfile) : ViceResult :=
  viceLoop v (normalizeTerm profile.host) (normalizeTerm profile.brandToken) 5

/-- `scoring.OverallResult` (part_010). -/
structure OverallResult where
  recommendation : String
  confidence : ℚ
deriving Repr, DecidableEq

/-- `scoring.CombineRecommendation` (part_010). -/
def CombineRecommendation (tr : TrademarkResult) (vice : ViceResult) : OverallResult :=
  let r :=
    if tr.score ≥ 4 ∨ vice.score ≥ 4 then "BLOCK"
    else if vice.score = 3 ∨ tr.score = 3 then "REVIEW"
    else if tr.score = 2 then "ALLOW_WITH_CAUTION"
    else if tr.score = 1 then "ALLOW_WITH_CAUTION"
    else "ALLOW"
  let confidence := if tr.confidence < vice.confidence then tr.confidence else vice.confidence
  { recommendation := goToUpper r, confidence := confidence }

/-- `store.Evaluation` (backend/internal/store/models.go), the scoring fields.
The vice categories are held as the decoded list (the JSON round trip of
`SetViceCategories`/`ViceCategories` is identity on string lists). -/
structure Evaluation where
  domain : String
  domainNormalized : String
  trademarkScore : Int
  trademarkType : String
  matchedTrademark : String
  trademarkConfidence : ℚ
  viceScore : Int
  viceCategories : List String
  viceConfidence : ℚ
  overallRecommendation : String
  explanation : String
  commercialOverride : Bool
  commercialSource : String
  commercialSimilarity : ℚ
deriving Repr, DecidableEq

/-- `api.EvaluationDTO` (part_006), the fields produced by `FromModel`. -/
structure EvaluationDTO where
  domain : String
  trademarkScore : Int
  trademarkType : String
  matchedTrademark : String
  trademarkConfidence : ℚ
  viceScore : Int
  viceCategories : List String
  viceConfidence : ℚ
  overallRecommendation : String
  confidence : ℚ
  explanation : String
  commercialOverride : Bool
  commercialSource : String
  commercialSimilarity : ℚ
deriving Repr, DecidableEq

/-- Go `int(x)` conversion of a float: truncation toward zero. -/
def goTruncInt (q : ℚ) : Int :=
  if q < 0 then -(Int.floor (-q)) else Int.floor q

/-- `round2` (part_006): `float64(int(v*100+0.5)) / 100`. -/
def round2 (v : ℚ) : ℚ :=
  mkRat (goTruncInt (v * 100 + mkRat 1 2)) 100

/-- `minFloat` (part_006): minimum with a zero operand treated as the other
operand. -/
def minFloat (a b : ℚ) : ℚ :=
  if a = 0 then b
  else if b = 0 then a
  else if a < b then a else b

/-- `api.FromModel` (part_006). -/
def FromModel (e : Evaluation) : EvaluationDTO :=
  { domain := e.domain
    trademarkScore := e.trademarkScore
    trademarkType := e.trademarkType
    matchedTrademark := e.matchedTrademark
    trademarkConfidence := round2 e.trademarkConfidence
    viceScore := e.viceScore
    viceCategories := e.viceCategories
    viceConfidence := round2 e.viceConfidence
    overallRecommendation := e.overallRecommendation
    confidence := round2 (minFloat e.trademarkConfidence e.viceConfidence)
    explanation := goTrim e.explanation
    commercialOverride := e.commercialOverride
    commercialSource := e.commercialSource
    commercialSimilarity := round2 e.commercialSimilarity }

/-- `usp.Mark` (part_005), the fields used by `resolveTrademark`. -/
structure UspMark where
  mark : String
  owner : String
  classes : List String
deriving Repr, DecidableEq

/-- `usp.LookupResult` (part_005). -/
structure LookupResult where
  term : String
  exactMatches : List UspMark
  similar : List UspMark
  checked : Bool
deriving Repr, DecidableEq

/-- `secondLevelLabel` (part_008): second-from-last label of the profile's
host (the api package's copy of the extraction, no ccTLD adjustment). -/
def secondLevelLabel (profile : DomainProfile) : String :=
  let host := goToLower (goTrim profile.host)
  if host = "" then ""
  else
    let parts := splitOnChar '.' host
    if parts.length < 2 then host
    else parts.getD (parts.length - 2) ""

/-- `secondLevelToken` (part_008). -/
def secondLevelToken (profile : DomainProfile) : String :=
  cleanToken (secondLevelLabel profile)

/-- `uniqueStrings` (part_008): trim, drop empties, case-insensitive first-win
deduplication preserving the first spelling. -/
def uniqueStrings (l : List String) : List String :=
  (l.foldl
    (fun acc item =>
      let trimmed := goTrim item
      if trimmed = "" then acc
      else if acc.any (fun s => goToLower s = goToLower trimmed) then acc
      else acc ++ [trimmed])
    [])

/-- The exact-match loop of `resolveTrademark` (part_008): the first USPTO
exact match whose `cleanToken` equals the profile's second-level token decides
the result; earlier nonempty marks accumulate as close matches. The fanciful
decision for a mark is abstracted by `decide_fanciful` (the configured
`FancifulDecider`, or the constant false when absent). -/
def resolveLoop (deciderFanciful : UspMark → Bool) (popular : List String)
    (sldToken : String) : List UspMark → List String → Option TrademarkResult × List String
  | [], closeMatches => (none, closeMatches)
  | exact :: rest, closeMatches =>
      if exact.mark = "" then resolveLoop deciderFanciful popular sldToken rest closeMatches
      else
        let closeMatches1 := closeMatches ++ [exact.mark]
        if cleanToken exact.mark ≠ sldToken then
          resolveLoop deciderFanciful popular sldToken rest closeMatches1
        else if deciderFanciful exact then
          (some ⟨5, "fanciful", exact.mark, mkRat 49 50⟩, closeMatches1)
        else if IsPopularToken popular exact.mark then
          (some ⟨2, "popular", exact.mark, mkRat 3 4⟩, closeMatches1)
        else
          (some ⟨0, "generic", exact.mark, mkRat 2 5⟩, closeMatches1)

/-- `Server.resolveTrademark` (part_008). -/
def resolveTrademark (deciderFanciful : UspMark → Bool) (popular : List String)
    (profile : DomainProfile) (hasLookup : Bool) (lookup : LookupResult)
    (fallback : TrademarkResult) : TrademarkResult × List String :=
  let sldToken := secondLevelToken profile
  if fallback.score > 0 ∧ fallback.matchedTrademark ≠ "" then
    (fallback, uniqueStrings [fallback.matchedTrademark])
  else if hasLookup && lookup.checked then
    match resolveLoop deciderFanciful popular sldToken lookup.exactMatches [] with
    | (some result, closeMatches) => (result, uniqueStrings closeMatches)
    | (none, closeMatches) =>
        let withSimilar := closeMatches ++ (lookup.similar.map (fun s => s.mark)).filter (fun m => m ≠ "")
        (⟨0, "none", "", mkRat 2 5⟩, uniqueStrings withSimilar)
  else (⟨0, "none", "", mkRat 2 5⟩, uniqueStrings [])

/-- `ai.Decision` (backend/internal/ai/types.go). -/
structure Decision where
  narrative : String
  trademarkScore : Option Int
  viceScore : Option Int
  recommendation : String
  confidence : Option ℚ
deriving Repr, DecidableEq

/-- `clampScore` (part_008). -/
def clampScore (v : Int) : Int :=
  if v < 0 then 0 else if v > 5 then 5 else v

/-- `clampConfidence` (part_008). -/
def clampConfidence (v : ℚ) : ℚ :=
  if v < 0 then 0 else if v > 1 then 1 else v

/-- `buildFallbackNarrative` (part_008): deterministic narrative keyed by the
heuristic recommendation. -/
def buildFallbackNarrative (recommendation : String) : String :=
  let r := goToUpper (goTrim recommendation)
  if r = "BLOCK" then
    "Heuristic risk scoring recommends BLOCK; AI explanation is temporarily unavailable."
  else if r = "REVIEW" then
    "Heuristic signals recommend REVIEW; AI narrative waiting for retry."
  else if r = "ALLOW_WITH_CAUTION" then
    "Heuristic evaluation suggests ALLOW WITH CAUTION; AI summary could not be retrieved."
  else
    "Heuristic evaluation completed; AI explanation unavailable at this time."

/-- `shouldRetryAI` (part_008): transient errors are recognized by substring
match on the lowercased message. -/
def shouldRetryAI (err : String) : Bool :=
  let msg := goToLower err
  goContains msg "status 429" || goContains msg "status 500" || goContains msg "status 503"

/-- `aiInitialBackoff` in seconds (part_008). -/
def aiInitialBackoff : Nat := 2

/-- `aiMaxBackoff` in seconds (part_008). -/
def aiMaxBackoff : Nat := 10

/-- `aiMaxRetries` (part_008). -/
def aiMaxRetries : Nat := 3

/-- The retry loop of `callAIWithRetry` (part_008) over the outcomes of the
successive `Explain` calls. Returns the final result, the number of attempts
consumed, and the seconds slept between and after failing attempts. -/
def callAIWithRetryGo : List (Except String Decision) → Nat → String →
    Except String Decision × Nat × List Nat
  | [], _, lastErr => (Except.error lastErr, 0, [])
  | o :: rest, delay, _ =>
      match o with
      | Except.ok d => (Except.ok d, 1, [])
      | Except.error e =>
          if !shouldRetryAI e then (Except.error e, 1, [])
          else
            let nd := if delay * 2 > aiMaxBackoff then aiMaxBackoff else delay * 2
            let r := callAIWithRetryGo rest nd e
            (r.1, r.2.1 + 1, delay :: r.2.2)

/-- `Server.callAIWithRetry` (part_008): at most `aiMaxRetries` attempts,
backoff starting at `aiInitialBackoff`, doubling, capped at `aiMaxBackoff`.
The context is never cancelled in this model. -/
def callAIWithRetry (enabled : Bool) (outcomes : List (Except String Decision)) :
    Except String Decision × Nat × List Nat :=
  if !enabled then (Except.error "ai disabled", 0, [])
  else callAIWithRetryGo (outcomes.take aiMaxRetries) aiInitialBackoff ""

/-- `Server.generateDecision` (part_008): a disabled explainer or a failed
retry loop yields the fallback narrative; a successful call replaces the
narrative and recommendation when nonempty and carries the optional score and
confidence overrides. It never returns an error. -/
def generateDecision (enabled : Bool) (outcomes : List (Except String Decision))
    (overall : OverallResult) : Decision :=
  let base : Decision :=
    { narrative := "", trademarkScore := none, viceScore := none,
      recommendation := goToUpper (goTrim overall.recommendation), confidence := none }
  if !enabled then { base with narrative := buildFallbackNarrative overall.recommendation }
  else
    match (callAIWithRetry enabled outcomes).1 with
    | Except.error _ => { base with narrative := buildFallbackNarrative overall.recommendation }
    | Except.ok result =>
        let d1 :=
          if goTrim result.narrative ≠ "" then { base with narrative := goTrim result.narrative }
          else base
        let d2 :=
          if goToUpper (goTrim result.recommendation) ≠ "" then
            { d1 with recommendation := goToUpper (goTrim result.recommendation) }
          else d1
        { d2 with trademarkScore := result.trademarkScore, viceScore := result.viceScore,
                  confidence := result.confidence }

/-- `commercial.Match` (part_013). -/
structure CommercialMatch where
  sld : String
  price : ℚ
  similarity : ℚ
deriving Repr, DecidableEq

/-- `commercialSimilarityThreshold` (part_008). -/
def commercialSimilarityThreshold : ℚ := mkRat 4 5

/-- The one-step downgrade switch of `evaluateDomain` (part_008). -/
def applyCommercialDowngrade (r : String) : String :=
  if r = "BLOCK" then "REVIEW"
  else if r = "REVIEW" then "ALLOW_WITH_CAUTION"
  else r

/-- The `commercial_source` string `fmt.Sprintf("sale $%.0f", price)`
(part_008); ties of `%.0f` round to even in Go, here to the nearest integer
(prices in the data are whole dollars, where the two agree). -/
def commercialSourceString (price : ℚ) : String :=
  "sale $" ++ toString (Int.floor (price + mkRat 1 2))

/-- The commercial-override block of `evaluateDomain` (part_008, the
`s.commercial.BestMatch` branch): similarity, source and override flag,
plus the possibly downgraded recommendation. -/
structure CommercialState where
  override : Bool
  source : String
  similarity : ℚ
  price : ℚ
  recommendation : String
deriving Repr, DecidableEq

/-- Lines 529-550 of part_008: the override is examined only when a best match
exists with similarity at or above the threshold, and granted only when the
pre-override vice score is at most 2 and the pre-override trademark score is
at most 3. -/
def commercialStep (best : Option CommercialMatch) (viceScore tmScore : Int)
    (overall0 : OverallResult) : CommercialState :=
  match best with
  | some m =>
      if m.similarity ≥ commercialSimilarityThreshold then
        if viceScore ≤ 2 ∧ tmScore ≤ 3 then
          { override := true, source := commercialSourceString m.price,
            similarity := m.similarity, price := m.price,
            recommendation := applyCommercialDowngrade overall0.recommendation }
        else
          { override := false, source := commercialSourceString m.price,
            similarity := m.similarity, price := m.price,
            recommendation := overall0.recommendation }
      else
        { override := false, source := "", similarity := 0, price := 0,
          recommendation := overall0.recommendation }
  | none =>
      { override := false, source := "", similarity := 0, price := 0,
        recommendation := overall0.recommendation }

/-- The scoring fields of the per-domain pipeline output (part_008,
`evaluateDomain`). -/
structure EvalOutcome where
  trademark : TrademarkResult
  vice : ViceResult
  overallRecommendation : String
  overallConfidence : ℚ
  commercialOverride : Bool
  commercialSource : String
  commercialSimilarity : ℚ
  explanation : String
deriving Repr, DecidableEq

/-- `Server.evaluateDomain` (part_008) after the heuristic scorers: commercial
override, AI decision with optional score/recommendation/confidence overrides,
downgrade reapplication, and assembly of the evaluation record. `tmRes` is the
resolved trademark result, `viceRes` the vice result, `best` the commercial
best match when the service is present and found one. -/
def evaluateDomainModel (tmRes : TrademarkResult) (viceRes : ViceResult)
    (best : Option CommercialMatch) (aiEnabled : Bool)
    (aiOutcomes : List (Except String Decision)) : EvalOutcome :=
  let overall0 := CombineRecommendation tmRes viceRes
  let comm := commercialStep best viceRes.score tmRes.score overall0
  let overall1 : OverallResult := { overall0 with recommendation := comm.recommendation }
  let decision := generateDecision aiEnabled aiOutcomes overall1
  let tm2 := match decision.trademarkScore with
    | some v => { tmRes with score := clampScore v }
    | none => tmRes
  let vice2 := match decision.viceScore with
    | some v => { viceRes with score := clampScore v }
    | none => viceRes
  let overall2 := CombineRecommendation tm2 vice2
  let overall3 : OverallResult :=
    if comm.override then
      { overall2 with recommendation := applyCommercialDowngrade overall2.recommendation }
    else overall2
  let recAI := goToUpper (goTrim decision.recommendation)
  let overall4 : OverallResult :=
    if recAI ≠ "" then { overall3 with recommendation := recAI } else overall3
  match decision.confidence with
  | some c =>
      let conf := clampConfidence c
      { trademark := { tm2 with confidence := conf }, vice := { vice2 with confidence := conf },
        overallRecommendation := overall4.recommendation, overallConfidence := conf,
        commercialOverride := comm.override, commercialSource := comm.source,
        commercialSimilarity := comm.similarity, explanation := goTrim decision.narrative }
  | none =>
      { trademark := tm2, vice := vice2,
        overallRecommendation := overall4.recommendation, overallConfidence := overall4.confidence,
        commercialOverride := comm.override, commercialSource := comm.source,
        commercialSimilarity := comm.similarity, explanation := goTrim decision.narrative }

/-- An event of a running job as assembled by `runEvaluation` and the cancel
handler (part_008); only the fields the claims mention. A field the Go code
leaves unset carries its zero value, as in the `EvaluationEvent` struct. -/
structure REvent where
  type : String
  processed : Nat
  total : Nat
deriving Repr, DecidableEq

/-- One observable step of the collector loop of `runEvaluation` (part_008).
`ok` is a successful domain result whose `flush(false)` either fires
(`flushFires = true`, at least 500 ms since the previous flush) or is
throttled; the other constructors are the loop's terminal select branches and
the concurrent cancellation request handled by `handleCancelEvaluate`. -/
inductive RunStep where
  | ok (flushFires : Bool)
  | saveFail
  | resultErr
  | listErr
  | cancelRequested
  | ctxCancel
deriving Repr, DecidableEq

/-- `flush(true)`: broadcast the pending coalesced evaluation event, if any. -/
def flushPending : Option Nat → Nat → List REvent
  | none, _ => []
  | some p, total => [⟨"evaluation", p, total⟩]

/-- The collector loop of `runEvaluation` (part_008): `processed` is
`totalProcessed`, `pending` the coalesced pending event, `done` the flag set
once `processed ≥ total` (after which further worker results are skipped).
Exhausting the steps is the closure of both channels, emitting `complete`. -/
def runLoopGo (total : Nat) : Nat → Option Nat → Bool → List RunStep → List REvent
  | processed, pending, _done, [] =>
      flushPending pending total ++ [⟨"complete", processed, total⟩]
  | processed, pending, done, step :: rest =>
      match step with
      | RunStep.ok ff =>
          if done then runLoopGo total processed pending done rest
          else
            let p1 := processed + 1
            let emitted := if ff then [(⟨"evaluation", p1, total⟩ : REvent)] else []
            let pending1 := if ff then none else some p1
            let done1 := decide (total ≤ p1)
            emitted ++ runLoopGo total p1 pending1 done1 rest
      | RunStep.saveFail =>
          if done then runLoopGo total processed pending done rest
          else flushPending pending total ++ [⟨"error", 0, 0⟩]
      | RunStep.resultErr =>
          if done then runLoopGo total processed pending done rest
          else flushPending pending total ++ [⟨"error", 0, 0⟩]
      | RunStep.listErr => flushPending pending total ++ [⟨"error", 0, 0⟩]
      | RunStep.cancelRequested =>
          ⟨"progress", 0, total⟩ :: runLoopGo total processed pending done rest
      | RunStep.ctxCancel => flushPending pending total ++ [⟨"cancelled", processed, total⟩]

/-- The event sequence of one job (part_008): the `started` event with the
initially skipped count, then the collector loop. -/
def runEvents (total init : Nat) (steps : List RunStep) : List REvent :=
  ⟨"started", init, total⟩ :: runLoopGo total init none false steps

/-- Number of successful domain results in a step sequence. -/
def countOk (steps : List RunStep) : Nat :=
  steps.countP (fun s => match s with | RunStep.ok _ => true | _ => false)

/-- The event types whose `processed` field is set by the emitting code; the
cancel-request `progress` event and `error` events leave it at the zero value
(omitted on the wire by `omitempty`). -/
def carriesProcessed (e : REvent) : Bool :=
  e.type = "started" || e.type = "evaluation" || e.type = "cancelled" || e.type = "complete"

/-- The processed counts of the events that set the field. -/
def processedSeq (events : List REvent) : List Nat :=
  (events.filter carriesProcessed).map REvent.processed

/-- An event as seen by the broadcaster (part_007), reduced to the fields the
replay logic inspects: the type and the optional evaluation payload
(abstracted to its identifier). -/
structure NEvent where
  type : String
  processed : Nat
  evaluation : Option Nat
deriving Repr, DecidableEq

/-- The retained-copy payload strip of `Broadcast` (part_007). -/
def stripEvaluation (e : NEvent) : NEvent :=
  { e with evaluation := none }

/-- The event types retained as `lastStatus` by `Broadcast` (part_007). -/
def retainTypes : List String := ["progress", "evaluation", "started"]

/-- `EvaluationNotifier` state (part_007): the registered clients (by
identifier) and the retained last status event. -/
structure NotifierState where
  clients : List Nat
  lastStatus : Option NEvent
deriving Repr, DecidableEq

/-- `NewEvaluationNotifier` (part_007). -/
def initialNotifier : NotifierState := { clients := [], lastStatus := none }

/-- The notifier operations: `Register`, `Unregister`, `Broadcast`
(part_007). -/
inductive NOp where
  | register (c : Nat)
  | unregister (c : Nat)
  | broadcast (e : NEvent)
deriving Repr, DecidableEq

/-- One notifier operation (part_007), returning the new state and the
deliveries (client, event) it performs; socket writes are assumed to
succeed. -/
def notifStep (st : NotifierState) : NOp → NotifierState × List (Nat × NEvent)
  | NOp.register c =>
      ({ st with clients := st.clients ++ [c] },
       match st.lastStatus with
       | some ev => [(c, ev)]
       | none => [])
  | NOp.unregister c =>
      ({ st with clients := st.clients.filter (fun x => x ≠ c) }, [])
  | NOp.broadcast e =>
      let st1 :=
        if retainTypes.contains e.type then { st with lastStatus := some (stripEvaluation e) }
        else st
      (st1, st.clients.map (fun c => (c, e)))

/-- Run a sequence of notifier operations, accumulating deliveries in order. -/
def notifRun : NotifierState → List NOp → NotifierState × List (Nat × NEvent)
  | st, [] => (st, [])
  | st, op :: rest =>
      let r1 := notifStep st op
      let r2 := notifRun r1.1 rest
      (r2.1, r1.2 ++ r2.2)

/-- Events delivered to client `c` over a run from the fresh notifier. -/
def deliveredTo (c : Nat) (ops : List NOp) : List NEvent :=
  ((notifRun initialNotifier ops).2.filter (fun p => p.1 = c)).map Prod.snd

/-- The events broadcast within a sequence of operations. -/
def broadcastsOf (ops : List NOp) : List NEvent :=
  ops.filterMap (fun op => match op with | NOp.broadcast e => some e | _ => none)

/-- Whether an operation registers or unregisters the given client. -/
def mentionsClient (c : Nat) : NOp → Bool
  | NOp.register x => x = c
  | NOp.unregister x => x = c
  | NOp.broadcast _ => false

/-- `EvaluateRequest` (part_006). -/
structure EvaluateRequest where
  batchID : Nat
  limit : Int
  offset : Int
  resume : Bool
  force : Bool
deriving Repr, DecidableEq

/-- A CSV batch, reduced to the fields `handleEvaluate` uses. -/
structure Batch where
  id : Nat
  name : String
deriving Repr, DecidableEq

/-- The failure modes of `handleEvaluate`/`startEvaluation` (part_008). -/
inductive StartError where
  | badRequest
  | batchNotFound
  | batchEmpty
  | alreadyRunning
  | internalError
deriving Repr, DecidableEq

/-- `StartEvaluationResponse` (part_006). -/
structure StartResponse where
  jobID : String
  batchID : Nat
  requestID : Nat
  total : Int
  startedAt : Nat
deriving Repr, DecidableEq

/-- `evaluationJob` (part_008), the fields set by `startEvaluation`. -/
structure EvalJob where
  id : String
  total : Int
  batchID : Nat
  requestID : Nat
  startedAt : Nat
deriving Repr, DecidableEq

/-- The mutex-guarded active-job slot of the server (part_008). -/
structure ServerJobState where
  activeJob : Option EvalJob
deriving Repr, DecidableEq

/-- A `BatchRequest` row as created by `CreateBatchRequest`
(backend/internal/store/db.go). -/
structure CreatedRequest where
  batchID : Nat
  reqType : String
  status : String
  jobID : String
deriving Repr, DecidableEq

/-- `Server.handleEvaluate` followed by `Server.startEvaluation` (part_008)
under the job mutex: the database batch lookup and domain count are
parameters, as are the fresh job identifier, the clock, and the outcome of
`CreateBatchRequest`. Returns the response or error, the job slot afterwards,
and the batch-request row created, if any. -/
def handleEvaluate (st : ServerJobState) (req : EvaluateRequest)
    (batches : List Batch) (countBatchDomains : Nat → Nat)
    (createRequestOutcome : Except Unit Nat) (newJobID : String) (now : Nat) :
    Except StartError StartResponse × ServerJobState × Option CreatedRequest :=
  if req.batchID = 0 then (Except.error StartError.badRequest, st, none)
  else
    match batches.find? (fun b => b.id = req.batchID) with
    | none => (Except.error StartError.batchNotFound, st, none)
    | some batch =>
        let totalDomains := countBatchDomains batch.id
        if totalDomains = 0 then (Except.error StartError.batchEmpty, st, none)
        else if st.activeJob.isSome then (Except.error StartError.alreadyRunning, st, none)
        else
          match createRequestOutcome with
          | Except.error _ => (Except.error StartError.internalError, st, none)
          | Except.ok requestID =>
              let job : EvalJob :=
                { id := newJobID, total := (totalDomains : Int), batchID := batch.id,
                  requestID := requestID, startedAt := now }
              (Except.ok
                 { jobID := newJobID, batchID := batch.id, requestID := requestID,
                   total := (totalDomains : Int), startedAt := now },
               { activeJob := some job },
               some { batchID := batch.id, reqType := "evaluate", status := "running",
                      jobID := newJobID })

/-- Modelled from the spec: the recommendation table of section 4.8, as a
function of the heuristic trademark score `t` and vice score `v`; compared
against `CombineRecommendation` below. -/
def specRecommendation (t v : Int) : String :=
  if t ≥ 4 ∨ v ≥ 4 then "BLOCK"
  else if v = 3 ∨ t = 3 then "REVIEW"
  else if t = 2 ∨ t = 1 then "ALLOW_WITH_CAUTION"
  else "ALLOW"

/-- Modelled from the spec: minimum of the two confidences with a zero
operand treated as the other operand; compared against `minFloat` below. -/
def specMinZero (a b : ℚ) : ℚ :=
  if a = 0 then b else if b = 0 then a else min a b

/-! ## Theorems -/

/-- `minFloat` implements the zero-aware minimum the spec describes. -/
lemma minFloat_eq_specMinZero (a b : ℚ) : minFloat a b = specMinZero a b := by
  unfold minFloat specMinZero
  split_ifs with h1 h2 h3
  · rfl
  · rfl
  · exact (min_eq_left h3.le).symm
  · exact (min_eq_right (le_of_not_lt h3)).symm

/-- Claim C4: the overall recommendation is BLOCK when T ≥ 4 or V ≥ 4, else
REVIEW when V = 3 or T = 3, else ALLOW_WITH_CAUTION when T ∈ {1, 2}, else
ALLOW; and the DTO's overall confidence is min(T.confidence, V.confidence)
with a zero operand treated as the other operand, rounded to two decimals as
the wire format specifies. -/
theorem C4_combine_recommendation_and_confidence :
    (∀ (tr : TrademarkResult) (vice : ViceResult),
        (CombineRecommendation tr vice).recommendation = specRecommendation tr.score vice.score)
    ∧ (∀ a b : ℚ, minFloat a b = specMinZero a b)
    ∧ (∀ e : Evaluation,
        (FromModel e).confidence = round2 (specMinZero e.trademarkConfidence e.viceConfidence)) := by
  refine ⟨?_, fun a b => minFloat_eq_specMinZero a b, ?_⟩
  · intro tr vice
    simp only [CombineRecommendation, specRecommendation]
    split_ifs <;> first | rfl | (exfalso; omega)
  · intro e
    show round2 (minFloat _ _) = _
    rw [minFloat_eq_specMinZero]

/-- The S1 trademark data of the specification and of the repository's own
test `TestTrademarkScoringExactMatchOnly`: the GOOGLE mark is fanciful and
seed-listed. -/
def s1Marks : List Mark := [⟨"1", "GOOGLE", "google", true⟩]

/-- The S1 index: GOOGLE under seed "google". -/
def s1Index : TrademarkIndex := buildTrademarkIndex s1Marks ["google"]

/-- Claim C2 (code bug): with GOOGLE indexed (is_fanciful), google
seed-listed, and no dictionary hit, the input https://google.store classifies
as fanciful, yet the scorer returns score 3, type popular, confidence 0.90
(REVIEW overall), because the popular-token membership of "google" in the
built-in baseline is checked before the fanciful return; the claim, the spec
scenario S1 and the repository's own test all expect score 5, type fanciful,
confidence 1.00, BLOCK. -/
theorem C2_google_store_code_result :
    TrademarkScorer.Score s1Index defaultPopularTokens (fun _ => false)
        (NormalizeDomain "https://google.store") = ⟨3, "popular", "GOOGLE", mkRat 9 10⟩
    ∧ (CombineRecommendation
         (TrademarkScorer.Score s1Index defaultPopularTokens (fun _ => false)
           (NormalizeDomain "https://google.store"))
         ⟨0, [], mkRat 99 100⟩).recommendation = "REVIEW"
    ∧ s1Index.classify defaultPopularTokens ⟨"1", "GOOGLE", "google", true⟩ = "fanciful"
    ∧ IsPopularToken defaultPopularTokens "google" = true := by
  exact ⟨by decide, by decide, by decide, by decide⟩

/-- The index of the ccTLD scenario: the mark "example". -/
def ccMarks : List Mark := [⟨"9", "Example", "example", false⟩]

/-- Index over `ccMarks`, no seeds. -/
def ccIndex : TrademarkIndex := buildTrademarkIndex ccMarks []

/-- Claim C3 (counterexample): for example.co.uk with "example" among the
index keys, the trademark scorer's lookup key is "co" — not "example" as the
claim states — and the scorer returns no match (score 0, type none, empty
matched trademark). -/
theorem C3_counterexample_co_uk :
    extractSLD (NormalizeDomain "example.co.uk") = "co"
    ∧ (NormalizeDomain "example.co.uk").core = "example"
    ∧ (buildExactMap ccMarks).map Prod.fst = ["example"]
    ∧ TrademarkScorer.Score ccIndex defaultPopularTokens (fun _ => false)
        (NormalizeDomain "example.co.uk") = ⟨0, "none", "", mkRat 1 5⟩ := by
  exact ⟨by decide, by decide, by decide, by decide⟩

/-- Claim C3 (amended): the SLD used for trademark scoring is always the
second-from-last host label with no ccTLD adjustment; the scorer depends on
the profile's host only, ignoring the ccTLD-aware core computed by the
normalizer, so for example.co.uk it looks up "co" (and finds nothing) while
the normalizer's core is "example". -/
theorem C3_scorer_uses_host_second_label :
    (∀ (idx : TrademarkIndex) (popular : List String) (isCommon : String → Bool)
        (p q : DomainProfile), p.host = q.host →
        TrademarkScorer.Score idx popular isCommon p = TrademarkScorer.Score idx popular isCommon q)
    ∧ extractSLD (NormalizeDomain "example.co.uk") = "co"
    ∧ (NormalizeDomain "example.co.uk").core = "example"
    ∧ (TrademarkScorer.Score ccIndex defaultPopularTokens (fun _ => false)
        (NormalizeDomain "example.co.uk")).score = 0 := by
  refine ⟨?_, by decide, by decide, by decide⟩
  intro idx popular isCommon p q h
  unfold TrademarkScorer.Score extractSLD
  rw [h]

/-- Witness for the amended C3: two profiles sharing the host example.co.uk
but with different cores receive the same trademark score. -/
theorem C3_scorer_uses_host_second_label_witness :
    TrademarkScorer.Score ccIndex defaultPopularTokens (fun _ => false)
        (NormalizeDomain "example.co.uk")
      = TrademarkScorer.Score ccIndex defaultPopularTokens (fun _ => false)
        { NormalizeDomain "example.co.uk" with core := "changed" } :=
  C3_scorer_uses_host_second_label.1 ccIndex defaultPopularTokens (fun _ => false) _ _ rfl

/-- A `[a-z0-9]` character is not a space, hyphen or underscore. -/
lemma shu_false_of_alnum (c : Char) (h : isLowerAlnum c = true) :
    isSpaceHyphenUnderscore c = false := by
  cases hsh : isSpaceHyphenUnderscore c
  · rfl
  · exfalso
    unfold isSpaceHyphenUnderscore at hsh
    simp only [Bool.or_eq_true, decide_eq_true_eq] at hsh
    rcases hsh with (h1 | h1) | h1 <;> subst h1 <;> revert h <;> decide

/-- Equality after `cleanToken` implies equality after `sanitizeLabel`:
the full `[a-z0-9]` sanitization refines the resolver's space/hyphen/
underscore removal. -/
lemma sanitize_eq_of_cleanToken_eq {a b : String} (h : cleanToken a = cleanToken b) :
    sanitizeLabel a = sanitizeLabel b := by
  unfold cleanToken at h
  unfold sanitizeLabel
  have hl : ((goToLower (goTrim a)).toList).filter (fun c => !(isSpaceHyphenUnderscore c))
      = ((goToLower (goTrim b)).toList).filter (fun c => !(isSpaceHyphenUnderscore c)) :=
    congrArg String.data h
  have key : ∀ L : List Char,
      (L.filter (fun c => !(isSpaceHyphenUnderscore c))).filter isLowerAlnum
        = L.filter isLowerAlnum := by
    intro L
    rw [List.filter_filter]
    refine List.filter_congr ?_
    intro c _
    cases hc : isLowerAlnum c
    · simp [hc]
    · simp [hc, shu_false_of_alnum c hc]
  have : ((goToLower (goTrim a)).toList).filter isLowerAlnum
      = ((goToLower (goTrim b)).toList).filter isLowerAlnum := by
    rw [← key ((goToLower (goTrim a)).toList), ← key ((goToLower (goTrim b)).toList), hl]
  exact congrArg String.mk this

/-- A key absent from the exact map is not found. -/
lemma lookupExact_eq_none {idx : TrademarkIndex} {sld : String}
    (h : sld ∉ idx.exact.map Prod.fst) : idx.lookupExact sld = none := by
  have h' : idx.exact.find? (fun p => p.1 = sld) = none := by
    apply List.find?_eq_none.mpr
    intro x hx
    simp only [decide_eq_true_eq]
    intro heq
    exact h (List.mem_map.mpr ⟨x, hx, heq⟩)
  unfold TrademarkIndex.lookupExact
  rw [h']
  rfl

/-- A sanitized SLD outside the index keys scores zero with type none. -/
lemma score_default_of_not_mem {idx : TrademarkIndex} {popular : List String}
    {isCommon : String → Bool} {profile : DomainProfile}
    (h : sanitizeLabel (extractSLD profile) ∉ idx.exact.map Prod.fst) :
    TrademarkScorer.Score idx popular isCommon profile = ⟨0, "none", "", mkRat 1 5⟩ := by
  simp only [TrademarkScorer.Score]
  rw [lookupExact_eq_none h]
  split_ifs <;> rfl

/-- A decided `resolveLoop` result comes from an exact USPTO match whose
`cleanToken` equals the second-level token. -/
lemma resolveLoop_some {deciderF : UspMark → Bool} {popular : List String} {sldToken : String} :
    ∀ (l : List UspMark) (acc : List String) (r : TrademarkResult) (cm : List String),
      resolveLoop deciderF popular sldToken l acc = (some r, cm) →
      ∃ m ∈ l, m.mark ≠ "" ∧ cleanToken m.mark = sldToken := by
  intro l
  induction l with
  | nil => intro acc r cm h; simp [resolveLoop] at h
  | cons x xs ih =>
      intro acc r cm h
      simp only [resolveLoop] at h
      by_cases h1 : x.mark = ""
      · rw [if_pos h1] at h
        obtain ⟨m, hm, hprop⟩ := ih _ _ _ h
        exact ⟨m, List.mem_cons_of_mem _ hm, hprop⟩
      · rw [if_neg h1] at h
        by_cases h2 : cleanToken x.mark ≠ sldToken
        · rw [if_pos h2] at h
          obtain ⟨m, hm, hprop⟩ := ih _ _ _ h
          exact ⟨m, List.mem_cons_of_mem _ hm, hprop⟩
        · rw [if_neg h2] at h
          push_neg at h2
          exact ⟨x, List.mem_cons_self _ _, h1, h2⟩

/-- Claim C1: only exact SLD-to-mark matches produce nonzero heuristic
trademark risk — a sanitized SLD outside the index keys scores 0 with type
none, a nonzero score forces index membership — and the USPTO resolution path
assigns a nonzero score only when an exact-match mark's sanitized form equals
the sanitized SLD. -/
theorem C1_trademark_exact_only :
    (∀ (marks : List Mark) (seeds popular : List String) (isCommon : String → Bool)
        (profile : DomainProfile),
        sanitizeLabel (extractSLD profile) ∉ (buildExactMap marks).map Prod.fst →
          TrademarkScorer.Score (buildTrademarkIndex marks seeds) popular isCommon profile
            = ⟨0, "none", "", mkRat 1 5⟩)
    ∧ (∀ (marks : List Mark) (seeds popular : List String) (isCommon : String → Bool)
        (profile : DomainProfile),
        (TrademarkScorer.Score (buildTrademarkIndex marks seeds) popular isCommon profile).score ≠ 0 →
          sanitizeLabel (extractSLD profile) ∈ (buildExactMap marks).map Prod.fst)
    ∧ (∀ (deciderF : UspMark → Bool) (popular : List String) (profile : DomainProfile)
        (hasLookup : Bool) (lookup : LookupResult) (fallback : TrademarkResult),
        ¬(fallback.score > 0 ∧ fallback.matchedTrademark ≠ "") →
        (resolveTrademark deciderF popular profile hasLookup lookup fallback).1.score ≠ 0 →
          ∃ m ∈ lookup.exactMatches,
            cleanToken m.mark = secondLevelToken profile
            ∧ sanitizeLabel m.mark = sanitizeLabel (secondLevelLabel profile)) := by
  refine ⟨?_, ?_, ?_⟩
  · intro marks seeds popular isCommon profile h
    exact score_default_of_not_mem h
  · intro marks seeds popular isCommon profile hscore
    by_contra hmem
    exact hscore (by rw [score_default_of_not_mem hmem])
  · intro deciderF popular profile hasLookup lookup fallback hfb hscore
    simp only [resolveTrademark] at hscore
    rw [if_neg hfb] at hscore
    by_cases hl : (hasLookup && lookup.checked) = true
    · rw [if_pos hl] at hscore
      rcases hr : resolveLoop deciderF popular (secondLevelToken profile) lookup.exactMatches []
        with ⟨or, cm⟩
      rw [hr] at hscore
      cases or with
      | some r =>
          obtain ⟨m, hm, hne, hct⟩ := resolveLoop_some _ _ _ _ hr
          exact ⟨m, hm, hct, sanitize_eq_of_cleanToken_eq hct⟩
      | none => simp at hscore
    · rw [if_neg hl] at hscore
      simp at hscore

/-- Witness for C1: the three parts applied to concrete inputs — googl.store
misses the index and scores 0; google.store's nonzero score sits on an index
key; a USPTO exact match equal to the SLD example carries sanitized
equality. -/
theorem C1_trademark_exact_only_witness :
    TrademarkScorer.Score (buildTrademarkIndex s1Marks ["google"]) defaultPopularTokens
        (fun _ => false) (NormalizeDomain "googl.store") = ⟨0, "none", "", mkRat 1 5⟩
    ∧ sanitizeLabel (extractSLD (NormalizeDomain "https://google.store"))
        ∈ (buildExactMap s1Marks).map Prod.fst
    ∧ ∃ m ∈ (LookupResult.mk "example" [⟨"Example", "Acme", []⟩] [] true).exactMatches,
        cleanToken m.mark = secondLevelToken (NormalizeDomain "example.com")
        ∧ sanitizeLabel m.mark = sanitizeLabel (secondLevelLabel (NormalizeDomain "example.com")) :=
  ⟨C1_trademark_exact_only.1 s1Marks ["google"] defaultPopularTokens (fun _ => false)
      (NormalizeDomain "googl.store") (by decide),
   C1_trademark_exact_only.2.1 s1Marks ["google"] defaultPopularTokens (fun _ => false)
      (NormalizeDomain "https://google.store") (by decide),
   C1_trademark_exact_only.2.2 (fun _ => true) defaultPopularTokens
      (NormalizeDomain "example.com") true (LookupResult.mk "example" [⟨"Example", "Acme", []⟩] [] true)
      ⟨0, "none", "", mkRat 2 5⟩ (by decide) (by decide)⟩

/-- The override flag of the pipeline output is the one the commercial step
computed; the AI stage never changes it. -/
lemma evaluateDomainModel_commercialOverride (tmRes : TrademarkResult) (viceRes : ViceResult)
    (best : Option CommercialMatch) (aiEnabled : Bool)
    (aiOutcomes : List (Except String Decision)) :
    (evaluateDomainModel tmRes viceRes best aiEnabled aiOutcomes).commercialOverride
      = (commercialStep best viceRes.score tmRes.score
          (CombineRecommendation tmRes viceRes)).override := by
  simp only [evaluateDomainModel]
  cases (generateDecision aiEnabled aiOutcomes
      { CombineRecommendation tmRes viceRes with
        recommendation := (commercialStep best viceRes.score tmRes.score
          (CombineRecommendation tmRes viceRes)).recommendation }).confidence <;> rfl

/-- Claim C5: a commercial override is granted only when the best similarity
reaches 0.80 and the pre-override vice score is at most 2 and the pre-override
trademark score is at most 3; its effect is the one-step downgrade
BLOCK→REVIEW, REVIEW→ALLOW_WITH_CAUTION with the lower tiers untouched; and
after the AI score override recomputes the overall recommendation the
downgrade is reapplied, below the AI-supplied recommendation which takes the
final word. -/
theorem C5_commercial_override :
    (∀ (tmRes : TrademarkResult) (viceRes : ViceResult) (best : Option CommercialMatch)
        (aiEnabled : Bool) (aiOutcomes : List (Except String Decision)),
        (evaluateDomainModel tmRes viceRes best aiEnabled aiOutcomes).commercialOverride = true →
          ∃ m, best = some m ∧ m.similarity ≥ commercialSimilarityThreshold
            ∧ viceRes.score ≤ 2 ∧ tmRes.score ≤ 3)
    ∧ applyCommercialDowngrade "BLOCK" = "REVIEW"
    ∧ applyCommercialDowngrade "REVIEW" = "ALLOW_WITH_CAUTION"
    ∧ applyCommercialDowngrade "ALLOW_WITH_CAUTION" = "ALLOW_WITH_CAUTION"
    ∧ applyCommercialDowngrade "ALLOW" = "ALLOW"
    ∧ (∀ (tmRes : TrademarkResult) (viceRes : ViceResult) (best : Option CommercialMatch)
        (aiEnabled : Bool) (aiOutcomes : List (Except String Decision)),
        (evaluateDomainModel tmRes viceRes best aiEnabled aiOutcomes).overallRecommendation
          = (let overall0 := CombineRecommendation tmRes viceRes
             let comm := commercialStep best viceRes.score tmRes.score overall0
             let decision := generateDecision aiEnabled aiOutcomes
               { overall0 with recommendation := comm.recommendation }
             let tm2 := match decision.trademarkScore with
               | some v => { tmRes with score := clampScore v }
               | none => tmRes
             let vice2 := match decision.viceScore with
               | some v => { viceRes with score := clampScore v }
               | none => viceRes
             let recomputed := (CombineRecommendation tm2 vice2).recommendation
             let reapplied := if comm.override then applyCommercialDowngrade recomputed
               else recomputed
             if goToUpper (goTrim decision.recommendation) ≠ "" then
               goToUpper (goTrim decision.recommendation)
             else reapplied)) := by
  refine ⟨?_, rfl, rfl, rfl, rfl, ?_⟩
  · intro tmRes viceRes best aiEnabled aiOutcomes h
    rw [evaluateDomainModel_commercialOverride] at h
    cases best with
    | none => simp [commercialStep] at h
    | some m =>
        simp only [commercialStep] at h
        split_ifs at h with hsim hbound
        exact ⟨m, rfl, hsim, hbound.1, hbound.2⟩
  · intro tmRes viceRes best aiEnabled aiOutcomes
    simp only [evaluateDomainModel]
    cases (generateDecision aiEnabled aiOutcomes
        { CombineRecommendation tmRes viceRes with
          recommendation := (commercialStep best viceRes.score tmRes.score
            (CombineRecommendation tmRes viceRes)).recommendation }).confidence <;>
      · simp only []
        split_ifs <;> rfl

/-- Witness for C5: for the S6 scenario (sale "cars" at similarity 1.00,
trademark 3, vice 0) the override is granted within bounds. -/
theorem C5_commercial_override_witness :
    ∃ m, (some (⟨"cars", 120000, 1⟩ : CommercialMatch)) = some m
      ∧ m.similarity ≥ commercialSimilarityThreshold
      ∧ (0 : Int) ≤ 2 ∧ (3 : Int) ≤ 3 :=
  C5_commercial_override.1 ⟨3, "popular", "Cars", mkRat 9 10⟩ ⟨0, [], mkRat 99 100⟩
    (some ⟨"cars", 120000, 1⟩) false [] (by decide)

/-- The backoff delays available from a starting delay over `n` further
attempts: double each step, capped at `aiMaxBackoff`. -/
def backoffSeq (d : Nat) : Nat → List Nat
  | 0 => []
  | n + 1 => d :: backoffSeq (if d * 2 > aiMaxBackoff then aiMaxBackoff else d * 2) n

/-- The retry loop makes at most one attempt per available outcome. -/
lemma callGo_attempts_le :
    ∀ (l : List (Except String Decision)) (d : Nat) (lastErr : String),
      (callAIWithRetryGo l d lastErr).2.1 ≤ l.length := by
  intro l
  induction l with
  | nil => intro d lastErr; simp [callAIWithRetryGo]
  | cons o rest ih =>
      intro d lastErr
      cases o with
      | ok dec => simp [callAIWithRetryGo]
      | error e =>
          simp only [callAIWithRetryGo]
          by_cases hr : shouldRetryAI e
          · simp only [hr, Bool.not_true, Bool.false_eq_true, if_false, List.length_cons]
            exact Nat.add_le_add_right (ih _ _) 1
          · simp only [Bool.not_eq_true] at hr
            simp [hr]

/-- The seconds slept by the retry loop are an initial segment of the doubling
backoff sequence. -/
lemma callGo_sleeps_take :
    ∀ (l : List (Except String Decision)) (d : Nat) (lastErr : String),
      (callAIWithRetryGo l d lastErr).2.2 <+: backoffSeq d l.length := by
  intro l
  induction l with
  | nil => intro d lastErr; simp [callAIWithRetryGo]
  | cons o rest ih =>
      intro d lastErr
      cases o with
      | ok dec => simp [callAIWithRetryGo]
      | error e =>
          simp only [callAIWithRetryGo]
          by_cases hr : shouldRetryAI e
          · simp only [hr, Bool.not_true, Bool.false_eq_true, if_false, List.length_cons,
              backoffSeq]
            obtain ⟨t, ht⟩ := ih (if d * 2 > aiMaxBackoff then aiMaxBackoff else d * 2) e
            exact ⟨t, by rw [← ht]; simp⟩
          · simp only [Bool.not_eq_true] at hr
            simp [hr, List.nil_prefix]

/-- Lengthening the horizon only extends the backoff sequence. -/
lemma backoffSeq_prefix_of_le :
    ∀ (m n : Nat) (d : Nat), m ≤ n → backoffSeq d m <+: backoffSeq d n := by
  intro m
  induction m with
  | zero => intro n d _; simp [backoffSeq, List.nil_prefix]
  | succ k ih =>
      intro n d hmn
      cases n with
      | zero => exact absurd hmn (by omega)
      | succ n1 =>
          simp only [backoffSeq]
          obtain ⟨t, ht⟩ := ih n1 (if d * 2 > aiMaxBackoff then aiMaxBackoff else d * 2)
            (Nat.succ_le_succ_iff.mp hmn)
          exact ⟨t, by rw [← ht]; simp⟩

/-- A retry (an attempt after attempt `k`) happens only when attempt `k`
failed with a transient error. -/
lemma callGo_retry_only :
    ∀ (l : List (Except String Decision)) (d : Nat) (lastErr : String) (k : Nat),
      k + 1 < (callAIWithRetryGo l d lastErr).2.1 →
      ∃ e, l[k]? = some (Except.error e) ∧ shouldRetryAI e = true := by
  intro l
  induction l with
  | nil => intro d lastErr k h; simp [callAIWithRetryGo] at h
  | cons o rest ih =>
      intro d lastErr k h
      cases o with
      | ok dec => simp [callAIWithRetryGo] at h
      | error e =>
          by_cases hr : shouldRetryAI e
          · simp only [callAIWithRetryGo, hr, Bool.not_true, Bool.false_eq_true, if_false] at h
            cases k with
            | zero => exact ⟨e, by simp, hr⟩
            | succ k1 =>
                obtain ⟨e1, he1, hre1⟩ := ih (if d * 2 > aiMaxBackoff then aiMaxBackoff else d * 2)
                  e k1 (by omega)
                exact ⟨e1, by simpa using he1, hre1⟩
          · simp only [Bool.not_eq_true] at hr
            simp [callAIWithRetryGo, hr] at h

/-- When the explainer is disabled or the retry loop fails, the decision is
the fallback narrative keyed by the supplied overall recommendation. -/
lemma generateDecision_fallback {enabled : Bool} {outcomes : List (Except String Decision)}
    {overall : OverallResult}
    (h : enabled = false ∨ ∃ e, (callAIWithRetry enabled outcomes).1 = Except.error e) :
    generateDecision enabled outcomes overall
      = { narrative := buildFallbackNarrative overall.recommendation,
          trademarkScore := none, viceScore := none,
          recommendation := goToUpper (goTrim overall.recommendation), confidence := none } := by
  rcases h with h | ⟨e, h⟩
  · subst h; rfl
  · cases enabled
    · rfl
    · unfold generateDecision
      rw [h]
      rfl

/-- The fallback narratives carry no edge whitespace. -/
lemma goTrim_buildFallbackNarrative (r : String) :
    goTrim (buildFallbackNarrative r) = buildFallbackNarrative r := by
  simp only [buildFallbackNarrative]
  split_ifs <;> decide

/-- Claim C7: at most 3 AI attempts per domain; sleeps follow the doubling
backoff 2 s, 4 s, 8 s (capped at 10 s); a retry happens only after an error
whose lowercased message contains "status 429", "status 500" or "status 503";
a non-transient first error stops retrying at once; on a disabled explainer or
an exhausted/terminal failure the evaluation still completes, with the
explanation equal to the deterministic fallback narrative keyed by the
heuristic recommendation; and the four fallback narratives are pairwise
distinct. -/
theorem C7_ai_retry_and_fallback :
    (∀ (enabled : Bool) (outcomes : List (Except String Decision)),
        (callAIWithRetry enabled outcomes).2.1 ≤ aiMaxRetries)
    ∧ (∀ (enabled : Bool) (outcomes : List (Except String Decision)),
        (callAIWithRetry enabled outcomes).2.2 <+: [2, 4, 8])
    ∧ (∀ d : Nat, (if d * 2 > aiMaxBackoff then aiMaxBackoff else d * 2) = min (d * 2) 10)
    ∧ (∀ (outcomes : List (Except String Decision)) (k : Nat),
        k + 1 < (callAIWithRetry true outcomes).2.1 →
          ∃ e, outcomes[k]? = some (Except.error e) ∧ shouldRetryAI e = true)
    ∧ (∀ e : String, shouldRetryAI e =
        (goContains (goToLower e) "status 429" || goContains (goToLower e) "status 500" ||
         goContains (goToLower e) "status 503"))
    ∧ (∀ (e : String) (rest : List (Except String Decision)), shouldRetryAI e = false →
        callAIWithRetry true (Except.error e :: rest) = (Except.error e, 1, []))
    ∧ (∀ (tmRes : TrademarkResult) (viceRes : ViceResult) (best : Option CommercialMatch)
        (enabled : Bool) (outcomes : List (Except String Decision)),
        (enabled = false ∨ ∃ e, (callAIWithRetry enabled outcomes).1 = Except.error e) →
          (evaluateDomainModel tmRes viceRes best enabled outcomes).explanation
            = buildFallbackNarrative
                (commercialStep best viceRes.score tmRes.score
                  (CombineRecommendation tmRes viceRes)).recommendation)
    ∧ (buildFallbackNarrative "BLOCK" ≠ buildFallbackNarrative "REVIEW"
       ∧ buildFallbackNarrative "BLOCK" ≠ buildFallbackNarrative "ALLOW_WITH_CAUTION"
       ∧ buildFallbackNarrative "BLOCK" ≠ buildFallbackNarrative "ALLOW"
       ∧ buildFallbackNarrative "REVIEW" ≠ buildFallbackNarrative "ALLOW_WITH_CAUTION"
       ∧ buildFallbackNarrative "REVIEW" ≠ buildFallbackNarrative "ALLOW"
       ∧ buildFallbackNarrative "ALLOW_WITH_CAUTION" ≠ buildFallbackNarrative "ALLOW") := by
  refine ⟨?_, ?_, ?_, ?_, fun e => rfl, ?_, ?_, by decide⟩
  · intro enabled outcomes
    unfold callAIWithRetry
    by_cases he : enabled
    · simp only [he, Bool.not_true, Bool.false_eq_true, if_false]
      calc (callAIWithRetryGo (outcomes.take aiMaxRetries) aiInitialBackoff "").2.1
          ≤ (outcomes.take aiMaxRetries).length := callGo_attempts_le _ _ _
        _ ≤ aiMaxRetries := by simp [List.length_take]
    · simp only [Bool.not_eq_true] at he
      simp [he]
  · intro enabled outcomes
    unfold callAIWithRetry
    by_cases he : enabled
    · simp only [he, Bool.not_true, Bool.false_eq_true, if_false]
      refine (callGo_sleeps_take _ _ _).trans ?_
      refine (backoffSeq_prefix_of_le _ aiMaxRetries _ (by simp [List.length_take])).trans ?_
      exact List.prefix_refl _
    · simp only [Bool.not_eq_true] at he
      simp [he, List.nil_prefix]
  · intro d
    unfold aiMaxBackoff
    split_ifs with h <;> omega
  · intro outcomes k h
    unfold callAIWithRetry at h
    simp only [Bool.not_true, Bool.false_eq_true, if_false] at h
    obtain ⟨e, he, hre⟩ := callGo_retry_only _ _ _ k h
    have hk : k < aiMaxRetries := by
      have h2 := callGo_attempts_le (outcomes.take aiMaxRetries) aiInitialBackoff ""
      have h3 : (outcomes.take aiMaxRetries).length ≤ aiMaxRetries := by
        simp [List.length_take]
      omega
    rw [List.getElem?_take] at he
    rw [if_pos hk] at he
    exact ⟨e, he, hre⟩
  · intro e rest h
    have htake : List.take aiMaxRetries (Except.error e :: rest)
        = Except.error e :: List.take 2 rest := by simp [aiMaxRetries]
    unfold callAIWithRetry
    simp [htake, callAIWithRetryGo, h]
  · intro tmRes viceRes best enabled outcomes h
    simp only [evaluateDomainModel, generateDecision_fallback h]
    exact goTrim_buildFallbackNarrative _

/-- Witness for C7: concrete applications — two transient failures force a
third attempt whose predecessor was transient; a non-transient error stops at
one attempt; with the explainer disabled the evaluation's explanation is the
ALLOW fallback narrative. -/
theorem C7_ai_retry_and_fallback_witness :
    (∃ e, ([Except.error "status 500", Except.error "status 503",
            (Except.error "parse" : Except String Decision)])[1]? = some (Except.error e)
        ∧ shouldRetryAI e = true)
    ∧ callAIWithRetry true [Except.error "bad json"] = (Except.error "bad json", 1, [])
    ∧ (evaluateDomainModel ⟨0, "none", "", mkRat 1 5⟩ ⟨0, [], mkRat 99 100⟩ none false []).explanation
        = buildFallbackNarrative
            (commercialStep none 0 0
              (CombineRecommendation ⟨0, "none", "", mkRat 1 5⟩ ⟨0, [], mkRat 99 100⟩)).recommendation :=
  ⟨C7_ai_retry_and_fallback.2.2.2.1
      [Except.error "status 500", Except.error "status 503", Except.error "parse"] 1 (by decide),
   C7_ai_retry_and_fallback.2.2.2.2.2.1 "bad json" [] (by decide),
   C7_ai_retry_and_fallback.2.2.2.2.2.2.1 ⟨0, "none", "", mkRat 1 5⟩ ⟨0, [], mkRat 99 100⟩
      none false [] (Or.inl rfl)⟩

/-- `charListLe` is total. -/
lemma charListLe_total : ∀ l m : List Char, charListLe l m = true ∨ charListLe m l = true := by
  intro l
  induction l with
  | nil => intro m; left; rfl
  | cons a as ih =>
      intro m
      cases m with
      | nil => right; rfl
      | cons b bs =>
          simp only [charListLe]
          rcases Nat.lt_trichotomy a.toNat b.toNat with h | h | h
          · left; rw [if_pos h]
          · rcases ih bs with h1 | h1
            · left
              rw [if_neg (by omega), if_pos h]
              exact h1
            · right
              rw [if_neg (by omega), if_pos h.symm]
              exact h1
          · right; rw [if_pos h]

/-- `charListLe` is transitive. -/
lemma charListLe_trans :
    ∀ l m n : List Char, charListLe l m = true → charListLe m n = true →
      charListLe l n = true := by
  intro l
  induction l with
  | nil => intro m n _ _; rfl
  | cons a as ih =>
      intro m n h1 h2
      cases m with
      | nil => exact absurd h1 (by simp [charListLe])
      | cons b bs =>
          cases n with
          | nil => exact absurd h2 (by simp [charListLe])
          | cons c cs =>
              simp only [charListLe] at h1 h2 ⊢
              by_cases hab : a.toNat < b.toNat
              · by_cases hbc : b.toNat < c.toNat
                · rw [if_pos (by omega)]
                · by_cases hbc2 : b.toNat = c.toNat
                  · rw [if_pos (by omega)]
                  · rw [if_neg hbc, if_neg hbc2] at h2
                    exact absurd h2 (by simp)
              · by_cases hab2 : a.toNat = b.toNat
                · rw [if_neg hab, if_pos hab2] at h1
                  by_cases hbc : b.toNat < c.toNat
                  · rw [if_pos (by omega)]
                  · by_cases hbc2 : b.toNat = c.toNat
                    · rw [if_neg hbc, if_pos hbc2] at h2
                      rw [if_neg (by omega), if_pos (by omega)]
                      exact ih bs cs h1 h2
                    · rw [if_neg hbc, if_neg hbc2] at h2
                      exact absurd h2 (by simp)
                · rw [if_neg hab, if_neg hab2] at h1
                  exact absurd h1 (by simp)

/-- `charListLe` is antisymmetric. -/
lemma charListLe_antisymm :
    ∀ l m : List Char, charListLe l m = true → charListLe m l = true → l = m := by
  intro l
  induction l with
  | nil =>
      intro m h1 h2
      cases m with
      | nil => rfl
      | cons b bs => exact absurd h2 (by simp [charListLe])
  | cons a as ih =>
      intro m h1 h2
      cases m with
      | nil => exact absurd h1 (by simp [charListLe])
      | cons b bs =>
          simp only [charListLe] at h1 h2
          by_cases hab : a.toNat < b.toNat
          · rw [if_neg (by omega), if_neg (by omega)] at h2
            exact absurd h2 (by simp)
          · by_cases hab2 : a.toNat = b.toNat
            · rw [if_neg hab, if_pos hab2] at h1
              rw [if_neg (by omega), if_pos (by omega)] at h2
              have hc : a = b := Char.ext (UInt32.ext hab2)
              rw [hc, ih bs h1 h2]
            · rw [if_neg hab, if_neg hab2] at h1
              exact absurd h1 (by simp)

instance : IsTotal String strLe :=
  ⟨fun a b => charListLe_total a.toList b.toList⟩

instance : IsTrans String strLe :=
  ⟨fun a b c => charListLe_trans a.toList b.toList c.toList⟩

/-- `strLe` is antisymmetric. -/
lemma strLe_antisymm {a b : String} (h1 : strLe a b) (h2 : strLe b a) : a = b :=
  String.ext (charListLe_antisymm a.toList b.toList h1 h2)

/-- The empty string is a lower bound of `strLe`. -/
lemma strLe_empty (s : String) : strLe "" s := rfl

/-- Membership through `dedupeGo` under a lower-bound chain: exactly the
elements other than `prev` survive. -/
lemma dedupeGo_mem (l : List String) :
    ∀ (prev : String), List.Chain strLe prev l →
      ∀ a, a ∈ dedupeGo prev l ↔ (a ∈ l ∧ a ≠ prev) := by
  induction l with
  | nil => intro prev _ a; simp [dedupeGo]
  | cons x xs ih =>
      intro prev hch a
      rw [List.chain_cons] at hch
      obtain ⟨hpx, hchx⟩ := hch
      by_cases hx : x = prev
      · subst hx
        simp only [dedupeGo, eq_self_iff_true, if_true]
        rw [ih x hchx a]
        constructor
        · rintro ⟨ha, hne⟩
          exact ⟨List.mem_cons_of_mem _ ha, hne⟩
        · rintro ⟨ha, hne⟩
          rcases List.mem_cons.mp ha with h | h
          · exact absurd h hne
          · exact ⟨h, hne⟩
      · simp only [dedupeGo, if_neg hx]
        rw [List.mem_cons, List.mem_cons, ih x hchx a]
        constructor
        · rintro (rfl | ⟨ha, hne⟩)
          · exact ⟨Or.inl rfl, hx⟩
          · refine ⟨Or.inr ha, ?_⟩
            intro hap
            subst hap
            have hxa : strLe x a := List.Chain.rel hchx ha
            exact hx (strLe_antisymm hxa hpx)
        · rintro ⟨rfl | ha, hne⟩
          · exact Or.inl rfl
          · by_cases hax : a = x
            · exact Or.inl hax
            · exact Or.inr ⟨ha, hax⟩

/-- `dedupeGo` under a lower-bound chain yields a strictly increasing chain
above `prev`. -/
lemma dedupeGo_strict (l : List String) :
    ∀ (prev : String), List.Chain strLe prev l →
      List.Chain (fun a b => strLe a b ∧ a ≠ b) prev (dedupeGo prev l) := by
  induction l with
  | nil => intro prev _; simp [dedupeGo, List.Chain.nil]
  | cons x xs ih =>
      intro prev hch
      rw [List.chain_cons] at hch
      obtain ⟨hpx, hchx⟩ := hch
      by_cases hx : x = prev
      · subst hx
        simp only [dedupeGo, eq_self_iff_true, if_true]
        exact ih x hchx
      · simp only [dedupeGo, if_neg hx]
        rw [List.chain_cons]
        exact ⟨⟨hpx, fun h => hx h.symm⟩, ih x hchx⟩

/-- The strict companion of `strLe` is transitive. -/
instance : IsTrans String (fun a b => strLe a b ∧ a ≠ b) :=
  ⟨fun a b c h1 h2 => by
    refine ⟨charListLe_trans _ _ _ h1.1 h2.1, ?_⟩
    rintro rfl
    exact h1.2 (strLe_antisymm h1.1 h2.1)⟩

/-- `goDedupe` of a list of nonempty strings: sorted, duplicate-free, and
with exactly the members of the input. -/
lemma goDedupe_spec (l : List String) (hne : ∀ a ∈ l, a ≠ "") :
    List.Sorted strLe (goDedupe l) ∧ (goDedupe l).Nodup
      ∧ ∀ a, a ∈ goDedupe l ↔ a ∈ l := by
  by_cases hl : l = []
  · subst hl; simp [goDedupe]
  · have hsorted : List.Sorted strLe (List.insertionSort strLe l) :=
      List.sorted_insertionSort strLe l
    have hperm : (List.insertionSort strLe l).Perm l := List.perm_insertionSort strLe l
    have hchain : List.Chain strLe "" (List.insertionSort strLe l) := by
      rw [List.chain_iff_pairwise, List.pairwise_cons]
      exact ⟨fun b _ => strLe_empty b, hsorted⟩
    have hstrict := dedupeGo_strict (List.insertionSort strLe l) "" hchain
    have hpair : List.Pairwise (fun a b => strLe a b ∧ a ≠ b)
        ("" :: dedupeGo "" (List.insertionSort strLe l)) :=
      List.chain_iff_pairwise.mp hstrict
    have hpair2 : List.Pairwise (fun a b => strLe a b ∧ a ≠ b)
        (dedupeGo "" (List.insertionSort strLe l)) :=
      List.Pairwise.sublist (List.sublist_cons_self _ _) hpair
    have hmem := dedupeGo_mem (List.insertionSort strLe l) "" hchain
    have hout : goDedupe l = dedupeGo "" (List.insertionSort strLe l) := by
      simp [goDedupe, hl]
    refine ⟨?_, ?_, ?_⟩
    · rw [hout]
      exact hpair2.imp (fun h => h.1)
    · rw [hout]
      exact hpair2.imp (fun h => h.2)
    · intro a
      rw [hout, hmem a]
      constructor
      · rintro ⟨ha, _⟩
        exact hperm.mem_iff.mp ha
      · intro ha
        exact ⟨hperm.mem_iff.mpr ha, hne a ha⟩

/-- Every hit survives the nonempty-term filter. -/
lemma hitsAt_ne_empty {v : ViceScorer} {domain brand : String} {s : Nat} :
    ∀ t ∈ hitsAt v domain brand s, t ≠ "" := by
  intro t ht
  rw [hitsAt, List.mem_filter] at ht
  have h2 := ht.2
  simp only [Bool.and_eq_true, decide_eq_true_eq] at h2
  exact h2.1

/-- The loop's confidence always matches its score through the mapping. -/
lemma viceLoop_conf (v : ViceScorer) (domain brand : String) :
    ∀ n : Nat, (viceLoop v domain brand n).confidence
      = confidenceForSeverity (viceLoop v domain brand n).score := by
  intro n
  induction n with
  | zero => rfl
  | succ k ih =>
      by_cases hh : hitsAt v domain brand (k + 1) = []
      · simp [viceLoop, hh, ih]
      · simp [viceLoop, hh]

/-- The descending severity loop returns the highest tier with hits, its
deduplicated sorted hit list, and zero when no tier hits. -/
lemma viceLoop_spec (v : ViceScorer) (domain brand : String) :
    ∀ n : Nat,
      ((viceLoop v domain brand n).score = 0
          ∧ (viceLoop v domain brand n).categories = []
          ∧ (∀ s : Nat, 1 ≤ s → s ≤ n → hitsAt v domain brand s = []))
        ∨ (∃ s : Nat, 1 ≤ s ∧ s ≤ n ∧ (viceLoop v domain brand n).score = (s : Int)
            ∧ hitsAt v domain brand s ≠ []
            ∧ (viceLoop v domain brand n).categories = goDedupe (hitsAt v domain brand s)
            ∧ (∀ s2 : Nat, s < s2 → s2 ≤ n → hitsAt v domain brand s2 = [])) := by
  intro n
  induction n with
  | zero =>
      left
      exact ⟨rfl, rfl, fun s h1 h2 => absurd h1 (by omega)⟩
  | succ k ih =>
      by_cases hh : hitsAt v domain brand (k + 1) = []
      · have hred : viceLoop v domain brand (k + 1) = viceLoop v domain brand k := by
          simp [viceLoop, hh]
        rcases ih with ⟨h1, h2, h3⟩ | ⟨s, hs1, hs2, hs3, hs4, hs5, hs6⟩
        · left
          refine ⟨by rw [hred]; exact h1, by rw [hred]; exact h2, ?_⟩
          intro s h1s h2s
          rcases Nat.lt_or_ge s (k + 1) with h | h
          · exact h3 s h1s (by omega)
          · have hs : s = k + 1 := by omega
            rw [hs]
            exact hh
        · right
          refine ⟨s, hs1, by omega, by rw [hred]; exact hs3, hs4, by rw [hred]; exact hs5, ?_⟩
          intro s2 hgt hle
          rcases Nat.lt_or_ge s2 (k + 1) with h | h
          · exact hs6 s2 hgt (by omega)
          · have hs : s2 = k + 1 := by omega
            rw [hs]
            exact hh
      · right
        have hred : viceLoop v domain brand (k + 1)
            = ⟨((k + 1 : Nat) : Int), goDedupe (hitsAt v domain brand (k + 1)),
               confidenceForSeverity ((k + 1 : Nat) : Int)⟩ := by
          simp [viceLoop, hh]
        refine ⟨k + 1, by omega, Nat.le_refl _, by rw [hred], hh, by rw [hred], ?_⟩
        intro s2 hgt hle
        exact absurd hgt (by omega)

/-- Claim C6: the vice scorer matches nonempty terms as substrings of the
sanitized (`[a-z0-9]`) host and of the sanitized brand token, returns the
highest severity tier 5..1 at which any term matches with the score equal to
that severity, categories the deduplicated sorted list of the terms matched
at that tier, zero score and empty categories when nothing matches anywhere,
and the confidence mapping {5,4}→0.95, 3→0.80, 2→0.70, 1→0.60, 0→0.99. -/
theorem C6_vice_scoring (v : ViceScorer) (profile : DomainProfile) :
    ((ViceScorer.Score v profile).score = 0 ∨
      (1 ≤ (ViceScorer.Score v profile).score ∧ (ViceScorer.Score v profile).score ≤ 5))
    ∧ (ViceScorer.Score v profile).confidence
        = confidenceForSeverity (ViceScorer.Score v profile).score
    ∧ (confidenceForSeverity 5 = mkRat 19 20 ∧ confidenceForSeverity 4 = mkRat 19 20
       ∧ confidenceForSeverity 3 = mkRat 4 5 ∧ confidenceForSeverity 2 = mkRat 7 10
       ∧ confidenceForSeverity 1 = mkRat 3 5 ∧ confidenceForSeverity 0 = mkRat 99 100)
    ∧ ((ViceScorer.Score v profile).score = 0 →
        (ViceScorer.Score v profile).categories = []
        ∧ ∀ s : Nat, 1 ≤ s → s ≤ 5 →
            hitsAt v (normalizeTerm profile.host) (normalizeTerm profile.brandToken) s = [])
    ∧ ((ViceScorer.Score v profile).score ≠ 0 →
        ∃ s : Nat, (s : Int) = (ViceScorer.Score v profile).score ∧ 1 ≤ s ∧ s ≤ 5
          ∧ hitsAt v (normalizeTerm profile.host) (normalizeTerm profile.brandToken) s ≠ []
          ∧ (∀ s2 : Nat, s < s2 → s2 ≤ 5 →
              hitsAt v (normalizeTerm profile.host) (normalizeTerm profile.brandToken) s2 = [])
          ∧ (∀ t, t ∈ (ViceScorer.Score v profile).categories ↔
              t ∈ hitsAt v (normalizeTerm profile.host) (normalizeTerm profile.brandToken) s)
          ∧ List.Sorted strLe (ViceScorer.Score v profile).categories
          ∧ (ViceScorer.Score v profile).categories.Nodup) := by
  rw [show ViceScorer.Score v profile
      = viceLoop v (normalizeTerm profile.host) (normalizeTerm profile.brandToken) 5 from rfl]
  have hconf := viceLoop_conf v (normalizeTerm profile.host) (normalizeTerm profile.brandToken) 5
  rcases viceLoop_spec v (normalizeTerm profile.host) (normalizeTerm profile.brandToken) 5 with
    ⟨h1, h2, h3⟩ | ⟨s, hs1, hs2, hs3, hs4, hs5, hs6⟩
  · refine ⟨Or.inl h1, hconf, by refine ⟨?_, ?_, ?_, ?_, ?_, ?_⟩ <;> decide,
      fun _ => ⟨h2, h3⟩, fun hne => absurd h1 hne⟩
  · obtain ⟨hsort, hnodup, hmem⟩ := goDedupe_spec
      (hitsAt v (normalizeTerm profile.host) (normalizeTerm profile.brandToken) s)
      hitsAt_ne_empty
    refine ⟨Or.inr ⟨by omega, by omega⟩, hconf, by refine ⟨?_, ?_, ?_, ?_, ?_, ?_⟩ <;> decide,
      fun h0 => absurd h0 (by omega), fun _ => ⟨s, hs3.symm, hs1, hs2, hs4, hs6, ?_, ?_, ?_⟩⟩
    · intro t
      rw [hs5]
      exact hmem t
    · rw [hs5]
      exact hsort
    · rw [hs5]
      exact hnodup

/-- The vice scorer of the S5 scenario and the repository's vice test:
severity 5 "terror", severity 3 "casino", severity 1 "dating". -/
def s5Vice : ViceScorer :=
  ⟨fun s => if s = 5 then ["terror"] else if s = 3 then ["casino"]
    else if s = 1 then ["dating"] else []⟩

/-- Witness for C6: terror-camp.com hits severity 5 with category list
exactly the matched terms. -/
theorem C6_vice_scoring_witness :
    ∃ s : Nat, (s : Int) = (ViceScorer.Score s5Vice (NormalizeDomain "terror-camp.com")).score
      ∧ 1 ≤ s ∧ s ≤ 5
      ∧ hitsAt s5Vice (normalizeTerm (NormalizeDomain "terror-camp.com").host)
          (normalizeTerm (NormalizeDomain "terror-camp.com").brandToken) s ≠ []
      ∧ (∀ s2 : Nat, s < s2 → s2 ≤ 5 →
          hitsAt s5Vice (normalizeTerm (NormalizeDomain "terror-camp.com").host)
            (normalizeTerm (NormalizeDomain "terror-camp.com").brandToken) s2 = [])
      ∧ (∀ t, t ∈ (ViceScorer.Score s5Vice (NormalizeDomain "terror-camp.com")).categories ↔
          t ∈ hitsAt s5Vice (normalizeTerm (NormalizeDomain "terror-camp.com").host)
            (normalizeTerm (NormalizeDomain "terror-camp.com").brandToken) s)
      ∧ List.Sorted strLe (ViceScorer.Score s5Vice (NormalizeDomain "terror-camp.com")).categories
      ∧ (ViceScorer.Score s5Vice (NormalizeDomain "terror-camp.com")).categories.Nodup :=
  (C6_vice_scoring s5Vice (NormalizeDomain "terror-camp.com")).2.2.2.2 (by decide)

/-- Claim C8: StartEvaluation requires an existing batch (else BatchNotFound),
a nonempty batch (else BatchEmpty) and no active job (else AlreadyRunning);
on success it records a running BatchRequest of type evaluate, installs the
job in the active slot, and answers with jobId, batchId, requestId, total and
startedAt; on any failure the job slot is unchanged and no request row is
created. -/
theorem C8_start_evaluation (st : ServerJobState) (req : EvaluateRequest)
    (batches : List Batch) (countBatchDomains : Nat → Nat)
    (createRequestOutcome : Except Unit Nat) (newJobID : String) (now : Nat) :
    (∀ err, (handleEvaluate st req batches countBatchDomains createRequestOutcome newJobID now).1
        = Except.error err →
      (handleEvaluate st req batches countBatchDomains createRequestOutcome newJobID now).2.1 = st
      ∧ (handleEvaluate st req batches countBatchDomains createRequestOutcome newJobID now).2.2 = none)
    ∧ ((handleEvaluate st req batches countBatchDomains createRequestOutcome newJobID now).1
        = Except.error StartError.alreadyRunning → st.activeJob.isSome = true)
    ∧ ((handleEvaluate st req batches countBatchDomains createRequestOutcome newJobID now).1
        = Except.error StartError.batchNotFound →
        batches.find? (fun b2 => b2.id = req.batchID) = none)
    ∧ ((handleEvaluate st req batches countBatchDomains createRequestOutcome newJobID now).1
        = Except.error StartError.batchEmpty →
        ∃ b, batches.find? (fun b2 => b2.id = req.batchID) = some b ∧ countBatchDomains b.id = 0)
    ∧ (∀ b, req.batchID ≠ 0 → batches.find? (fun b2 => b2.id = req.batchID) = some b →
        countBatchDomains b.id ≠ 0 → st.activeJob = none →
        ∀ requestID, createRequestOutcome = Except.ok requestID →
          (handleEvaluate st req batches countBatchDomains createRequestOutcome newJobID now).1
              = Except.ok (StartResponse.mk newJobID b.id requestID
                  (countBatchDomains b.id : Int) now)
          ∧ (handleEvaluate st req batches countBatchDomains createRequestOutcome newJobID now).2.1
              = ServerJobState.mk (some (EvalJob.mk newJobID (countBatchDomains b.id : Int)
                  b.id requestID now))
          ∧ (handleEvaluate st req batches countBatchDomains createRequestOutcome newJobID now).2.2
              = some (CreatedRequest.mk b.id "evaluate" "running" newJobID)) := by
  by_cases h0 : req.batchID = 0
  · have hall : handleEvaluate st req batches countBatchDomains createRequestOutcome newJobID now
        = (Except.error StartError.badRequest, st, none) := by
      simp [handleEvaluate, h0]
    rw [hall]
    refine ⟨fun err _ => ⟨rfl, rfl⟩, ?_, ?_, ?_, ?_⟩
    · intro h; simp at h
    · intro h; simp at h
    · intro h; simp at h
    · intro b hne; exact absurd h0 hne
  · rcases hfind : batches.find? (fun b2 => b2.id = req.batchID) with _ | b
    · have hall : handleEvaluate st req batches countBatchDomains createRequestOutcome newJobID now
          = (Except.error StartError.batchNotFound, st, none) := by
        simp [handleEvaluate, h0, hfind]
      rw [hall]
      refine ⟨fun err _ => ⟨rfl, rfl⟩, ?_, fun _ => hfind, ?_, ?_⟩
      · intro h; simp at h
      · intro h
        simp at h
      · intro b hne hfind2
        rw [hfind] at hfind2
        simp at hfind2
    · by_cases hc : countBatchDomains b.id = 0
      · have hall : handleEvaluate st req batches countBatchDomains createRequestOutcome newJobID now
            = (Except.error StartError.batchEmpty, st, none) := by
          simp [handleEvaluate, h0, hfind, hc]
        rw [hall]
        refine ⟨fun err _ => ⟨rfl, rfl⟩, ?_, ?_, fun _ => ⟨b, hfind, hc⟩, ?_⟩
        · intro h; simp at h
        · intro h; simp at h
        · intro b2 hne hfind2 hcount2
          rw [hfind] at hfind2
          have hb : b2 = b := (Option.some.inj hfind2).symm
          rw [hb] at hcount2
          exact absurd hc hcount2
      · by_cases hj : st.activeJob.isSome = true
        · have hall : handleEvaluate st req batches countBatchDomains createRequestOutcome newJobID now
              = (Except.error StartError.alreadyRunning, st, none) := by
            simp [handleEvaluate, h0, hfind, hc, hj]
          rw [hall]
          refine ⟨fun err _ => ⟨rfl, rfl⟩, fun _ => hj, ?_, ?_, ?_⟩
          · intro h; simp at h
          · intro h; simp at h
          · intro b2 hne hfind2 hcount2 hnone
            rw [hnone] at hj
            simp at hj
        · cases hcr : createRequestOutcome with
          | error u =>
              have hall : handleEvaluate st req batches countBatchDomains (Except.error u)
                    newJobID now
                  = (Except.error StartError.internalError, st, none) := by
                simp [handleEvaluate, h0, hfind, hc, hj]
              rw [hall]
              refine ⟨fun err _ => ⟨rfl, rfl⟩, ?_, ?_, ?_, ?_⟩
              · intro h; simp at h
              · intro h; simp at h
              · intro h; simp at h
              · intro b2 hne hfind2 hcount2 hnone requestID hcr2
                simp at hcr2
          | ok reqID =>
              have hall : handleEvaluate st req batches countBatchDomains (Except.ok reqID)
                    newJobID now
                  = (Except.ok (StartResponse.mk newJobID b.id reqID
                        (countBatchDomains b.id : Int) now),
                     ServerJobState.mk (some (EvalJob.mk newJobID (countBatchDomains b.id : Int)
                        b.id reqID now)),
                     some (CreatedRequest.mk b.id "evaluate" "running" newJobID)) := by
                simp [handleEvaluate, h0, hfind, hc, hj]
              rw [hall]
              refine ⟨?_, ?_, ?_, ?_, ?_⟩
              · intro err h; simp at h
              · intro h; simp at h
              · intro h; simp at h
              · intro h; simp at h
              · intro b2 hne hfind2 hcount2 hnone requestID hcr2
                rw [hfind] at hfind2
                have hb : b = b2 := Option.some.inj hfind2
                have hr : reqID = requestID := Except.ok.inj hcr2
                subst hb
                subst hr
                exact ⟨rfl, rfl, rfl⟩

/-- Witness for C8: a concrete successful start — batch 7 with 3 domains, no
active job, request row 11 — returns the expected response, job slot and
request row. -/
theorem C8_start_evaluation_witness :
    (handleEvaluate ⟨none⟩ ⟨7, 0, 0, false, false⟩ [⟨7, "batch-a"⟩] (fun _ => 3)
        (Except.ok 11) "job-1" 5).1
        = Except.ok (StartResponse.mk "job-1" (Batch.mk 7 "batch-a").id 11
            ((fun (_ : Nat) => 3) (Batch.mk 7 "batch-a").id : Int) 5)
    ∧ (handleEvaluate ⟨none⟩ ⟨7, 0, 0, false, false⟩ [⟨7, "batch-a"⟩] (fun _ => 3)
        (Except.ok 11) "job-1" 5).2.1
        = ServerJobState.mk (some (EvalJob.mk "job-1"
            ((fun (_ : Nat) => 3) (Batch.mk 7 "batch-a").id : Int) (Batch.mk 7 "batch-a").id 11 5))
    ∧ (handleEvaluate ⟨none⟩ ⟨7, 0, 0, false, false⟩ [⟨7, "batch-a"⟩] (fun _ => 3)
        (Except.ok 11) "job-1" 5).2.2
        = some (CreatedRequest.mk (Batch.mk 7 "batch-a").id "evaluate" "running" "job-1") :=
  C8_start_evaluation ⟨none⟩ ⟨7, 0, 0, false, false⟩ [⟨7, "batch-a"⟩] (fun _ => 3)
    (Except.ok 11) "job-1" 5 |>.2.2.2.2 ⟨7, "batch-a"⟩ (by decide) (by decide) (by decide) rfl
    11 rfl

/-- Counting successful results: an `ok` step adds one. -/
lemma countOk_cons_ok (ff : Bool) (rest : List RunStep) :
    countOk (RunStep.ok ff :: rest) = countOk rest + 1 := by
  simp [countOk, List.countP_cons]

/-- A chain of inequalities survives lowering its head. -/
lemma chain_le_weaken {a b : Nat} {l : List Nat} (hab : a ≤ b)
    (h : List.Chain (· ≤ ·) b l) : List.Chain (· ≤ ·) a l := by
  cases l with
  | nil => exact List.Chain.nil
  | cons x xs =>
      rw [List.chain_cons] at h ⊢
      exact ⟨le_trans hab h.1, h.2⟩

/-- `processedSeq` over a cons with a processed-carrying head. -/
lemma processedSeq_cons_carry {e : REvent} (h : carriesProcessed e = true) (l : List REvent) :
    processedSeq (e :: l) = e.processed :: processedSeq l := by
  simp [processedSeq, List.filter_cons, h]

/-- `processedSeq` over a cons whose head does not carry a processed count. -/
lemma processedSeq_cons_skip {e : REvent} (h : carriesProcessed e = false) (l : List REvent) :
    processedSeq (e :: l) = processedSeq l := by
  simp [processedSeq, List.filter_cons, h]

/-- Invariant of the collector loop: among the events that set the processed
field, the counts grow from the current count and never pass the total,
provided the remaining successful results fit under the total. -/
lemma runLoopGo_mono (total : Nat) :
    ∀ (steps : List RunStep) (processed : Nat) (pending : Option Nat) (done : Bool),
      (pending = none ∨ pending = some processed) →
      processed ≤ total →
      (done = false → processed + countOk steps ≤ total) →
      List.Chain (· ≤ ·) processed (processedSeq (runLoopGo total processed pending done steps))
      ∧ ∀ p ∈ processedSeq (runLoopGo total processed pending done steps), p ≤ total := by
  intro steps
  induction steps with
  | nil =>
      intro processed pending done hpend hle hcnt
      rcases hpend with h | h <;> subst h <;>
        constructor <;>
          simp [runLoopGo, flushPending, processedSeq, carriesProcessed, List.chain_cons] <;>
          omega
  | cons step rest ih =>
      intro processed pending done hpend hle hcnt
      cases step with
      | ok ff =>
          cases done with
          | true =>
              simp only [runLoopGo, if_true]
              exact ih processed pending true hpend hle (fun h => by simp at h)
          | false =>
              have hfit : processed + 1 + countOk rest ≤ total := by
                have := hcnt rfl
                rw [countOk_cons_ok] at this
                omega
              cases ff with
              | true =>
                  have hred : runLoopGo total processed pending false (RunStep.ok true :: rest)
                      = (⟨"evaluation", processed + 1, total⟩ : REvent) ::
                        runLoopGo total (processed + 1) none (decide (total ≤ processed + 1))
                          rest := by
                    simp [runLoopGo]
                  rw [hred]
                  obtain ⟨hch, hbd⟩ := ih (processed + 1) none (decide (total ≤ processed + 1))
                    (Or.inl rfl) (by omega) (fun _ => hfit)
                  have hcarry : carriesProcessed (⟨"evaluation", processed + 1, total⟩ : REvent)
                      = true := rfl
                  rw [processedSeq_cons_carry hcarry]
                  constructor
                  · exact List.Chain.cons (by omega : processed ≤ processed + 1) hch
                  · intro p hp
                    rcases List.mem_cons.mp hp with rfl | hp2
                    · exact (by omega : processed + 1 ≤ total)
                    · exact hbd p hp2
              | false =>
                  have hred : runLoopGo total processed pending false (RunStep.ok false :: rest)
                      = runLoopGo total (processed + 1) (some (processed + 1))
                          (decide (total ≤ processed + 1)) rest := by
                    simp [runLoopGo]
                  rw [hred]
                  obtain ⟨hch, hbd⟩ := ih (processed + 1) (some (processed + 1))
                    (decide (total ≤ processed + 1)) (Or.inr rfl) (by omega) (fun _ => hfit)
                  exact ⟨chain_le_weaken (by omega) hch, hbd⟩
      | saveFail =>
          cases done with
          | true =>
              simp only [runLoopGo, if_true]
              exact ih processed pending true hpend hle (fun h => by simp at h)
          | false =>
              rcases hpend with h | h <;> subst h <;>
                constructor <;>
                  simp [runLoopGo, flushPending, processedSeq, carriesProcessed,
                    List.chain_cons]; omega
      | resultErr =>
          cases done with
          | true =>
              simp only [runLoopGo, if_true]
              exact ih processed pending true hpend hle (fun h => by simp at h)
          | false =>
              rcases hpend with h | h <;> subst h <;>
                constructor <;>
                  simp [runLoopGo, flushPending, processedSeq, carriesProcessed,
                    List.chain_cons]; omega
      | listErr =>
          rcases hpend with h | h <;> subst h <;>
            constructor <;>
              simp [runLoopGo, flushPending, processedSeq, carriesProcessed,
                List.chain_cons]; omega
      | cancelRequested =>
          have hred : runLoopGo total processed pending done (RunStep.cancelRequested :: rest)
              = (⟨"progress", 0, total⟩ : REvent) ::
                runLoopGo total processed pending done rest := by
            simp [runLoopGo]
          rw [hred]
          have hcnt2 : done = false → processed + countOk rest ≤ total := by
            intro h
            have h3 := hcnt h
            simp only [countOk, List.countP_cons] at h3
            simp only [countOk]
            omega
          obtain ⟨hch, hbd⟩ := ih processed pending done hpend hle hcnt2
          have hskip : carriesProcessed (⟨"progress", 0, total⟩ : REvent) = false := rfl
          rw [processedSeq_cons_skip hskip]
          exact ⟨hch, hbd⟩
      | ctxCancel =>
          rcases hpend with h | h <;> subst h <;>
            constructor <;>
              simp [runLoopGo, flushPending, processedSeq, carriesProcessed,
                List.chain_cons] <;> omega

/-- Claim C9 (counterexample): the event sequence of a job cancelled right
after its first evaluation event — started(0), evaluation(1), the cancel
handler's progress event with processed 0, cancelled(1) — is not
non-decreasing in the processed field. -/
theorem C9_counterexample_cancel_progress :
    runEvents 2 0 [RunStep.ok true, RunStep.cancelRequested, RunStep.ctxCancel]
      = [⟨"started", 0, 2⟩, ⟨"evaluation", 1, 2⟩, ⟨"progress", 0, 2⟩, ⟨"cancelled", 1, 2⟩]
    ∧ ¬ List.Chain' (· ≤ ·)
        ((runEvents 2 0 [RunStep.ok true, RunStep.cancelRequested, RunStep.ctxCancel]).map
          REvent.processed) := by
  constructor
  · decide
  · have h : (runEvents 2 0 [RunStep.ok true, RunStep.cancelRequested, RunStep.ctxCancel]).map
        REvent.processed = [0, 1, 0, 1] := by decide
    rw [h]
    simp [List.chain'_cons]

/-- Claim C9 (amended): among the events whose processed field is set by the
emitting code (started, evaluation, cancelled, complete — the cancel-request
progress event and error events leave it at zero, omitted on the wire), the
processed counts of one job are non-decreasing and never exceed the total,
provided the initially skipped count plus the number of successful results
does not exceed the total (which the producer guarantees by enumerating only
the not-yet-evaluated distinct batch domains). -/
theorem C9_amended_monotone_progress (jobTotal init : Nat) (steps : List RunStep)
    (h : init + countOk steps ≤ jobTotal) :
    List.Chain' (· ≤ ·) (processedSeq (runEvents jobTotal init steps))
    ∧ ∀ p ∈ processedSeq (runEvents jobTotal init steps), p ≤ jobTotal := by
  have hle : init ≤ jobTotal := by omega
  obtain ⟨hchain, hbound⟩ := runLoopGo_mono jobTotal steps init none false (Or.inl rfl) hle
    (fun _ => h)
  have hseq : processedSeq (runEvents jobTotal init steps)
      = init :: processedSeq (runLoopGo jobTotal init none false steps) := by
    simp [runEvents, processedSeq, List.filter_cons, carriesProcessed]
  rw [hseq]
  constructor
  · exact hchain
  · intro p hp
    rcases List.mem_cons.mp hp with h2 | h2
    · omega
    · exact hbound p h2

/-- Witness for the amended C9: the cancel scenario trace restricted to the
processed-carrying events is non-decreasing and bounded by the total. -/
theorem C9_amended_monotone_progress_witness :
    List.Chain' (· ≤ ·)
      (processedSeq (runEvents 2 0 [RunStep.ok true, RunStep.cancelRequested, RunStep.ctxCancel]))
    ∧ ∀ p ∈ processedSeq
        (runEvents 2 0 [RunStep.ok true, RunStep.cancelRequested, RunStep.ctxCancel]),
        p ≤ 2 :=
  C9_amended_monotone_progress 2 0 [RunStep.ok true, RunStep.cancelRequested, RunStep.ctxCancel]
    (by decide)

/-- Running a concatenation of notifier operations composes states and
concatenates deliveries. -/
lemma notifRun_append (l1 : List NOp) :
    ∀ (st : NotifierState) (l2 : List NOp),
      notifRun st (l1 ++ l2)
        = ((notifRun (notifRun st l1).1 l2).1,
           (notifRun st l1).2 ++ (notifRun (notifRun st l1).1 l2).2) := by
  induction l1 with
  | nil => intro st l2; simp [notifRun]
  | cons op rest ih =>
      intro st l2
      simp only [List.cons_append, notifRun, List.append_eq, ih, List.append_assoc]

/-- A client never mentioned and not yet registered receives nothing and
stays unregistered. -/
lemma notifRun_absent (ops : List NOp) :
    ∀ (st : NotifierState) (c : Nat),
      (∀ op ∈ ops, mentionsClient c op = false) → c ∉ st.clients →
      ((notifRun st ops).2.filter (fun p => p.1 = c)) = []
      ∧ c ∉ (notifRun st ops).1.clients := by
  induction ops with
  | nil => intro st c _ hc; exact ⟨rfl, hc⟩
  | cons op rest ih =>
      intro st c hops hc
      have hop : mentionsClient c op = false := hops op (List.mem_cons_self _ _)
      have hrest : ∀ op2 ∈ rest, mentionsClient c op2 = false :=
        fun op2 h2 => hops op2 (List.mem_cons_of_mem _ h2)
      cases op with
      | register d =>
          have hdc : d ≠ c := by
            simp only [mentionsClient, decide_eq_false_iff_not] at hop
            exact hop
          have hc2 : c ∉ st.clients ++ [d] := by
            simp only [List.mem_append, List.mem_singleton]
            rintro (h | h)
            · exact hc h
            · exact hdc h.symm
          obtain ⟨h1, h2⟩ := ih { st with clients := st.clients ++ [d] } c hrest hc2
          constructor
          · simp only [notifRun, notifStep, List.filter_append, h1, List.append_nil]
            cases hls : st.lastStatus with
            | none => rfl
            | some ev => simp [hdc]
          · exact h2
      | unregister d =>
          have hc2 : c ∉ st.clients.filter (fun x => x ≠ d) := by
            intro h
            exact hc (List.mem_of_mem_filter h)
          obtain ⟨h1, h2⟩ := ih { st with clients := st.clients.filter (fun x => x ≠ d) } c
            hrest hc2
          constructor
          · simp only [notifRun, notifStep, List.filter_append, h1, List.nil_append,
              List.filter_nil]
          · exact h2
      | broadcast e =>
          have hfan : ((st.clients.map (fun c2 => (c2, e))).filter (fun p => p.1 = c)) = [] := by
            rw [List.filter_eq_nil_iff]
            intro x hx
            obtain ⟨c2, hc2, rfl⟩ := List.mem_map.mp hx
            simp only [decide_eq_true_eq]
            intro hcc
            exact hc (hcc ▸ hc2)
          have hc2 : c ∉ ((notifStep st (NOp.broadcast e)).1).clients := by
            simp only [notifStep]
            split_ifs <;> exact hc
          obtain ⟨h1, h2⟩ := ih ((notifStep st (NOp.broadcast e)).1) c hrest hc2
          simp only [notifStep] at h1 h2
          constructor
          · simp only [notifRun, notifStep, List.filter_append, hfan, List.nil_append, h1]
          · simp only [notifRun, notifStep]
            exact h2

/-- A registered, never-mentioned client receives exactly the events
broadcast while it stays registered. -/
lemma notifRun_registered (ops : List NOp) :
    ∀ (st : NotifierState) (c : Nat),
      (∀ op ∈ ops, mentionsClient c op = false) → st.clients.count c = 1 →
      (((notifRun st ops).2.filter (fun p => p.1 = c)).map Prod.snd = broadcastsOf ops)
      ∧ (notifRun st ops).1.clients.count c = 1 := by
  induction ops with
  | nil => intro st c _ hc; exact ⟨rfl, hc⟩
  | cons op rest ih =>
      intro st c hops hc
      have hop : mentionsClient c op = false := hops op (List.mem_cons_self _ _)
      have hrest : ∀ op2 ∈ rest, mentionsClient c op2 = false :=
        fun op2 h2 => hops op2 (List.mem_cons_of_mem _ h2)
      cases op with
      | register d =>
          have hdc : d ≠ c := by
            simp only [mentionsClient, decide_eq_false_iff_not] at hop
            exact hop
          have hc2 : (st.clients ++ [d]).count c = 1 := by
            rw [List.count_append]
            simp [List.count_singleton, hdc, hc]
          obtain ⟨h1, h2⟩ := ih { st with clients := st.clients ++ [d] } c hrest hc2
          constructor
          · simp only [notifRun, notifStep, List.filter_append, List.map_append, broadcastsOf,
              List.filterMap_cons]
            have hreg : List.filter (fun p => decide (p.1 = c))
                (match st.lastStatus with
                  | some ev => [(d, ev)]
                  | none => ([] : List (Nat × NEvent))) = [] := by
              cases hls : st.lastStatus with
              | none => rfl
              | some ev => simp [hdc]
            rw [hreg]
            simpa [broadcastsOf] using h1
          · exact h2
      | unregister d =>
          have hdc : d ≠ c := by
            simp only [mentionsClient, decide_eq_false_iff_not] at hop
            exact hop
          have hc2 : (st.clients.filter (fun x => x ≠ d)).count c = 1 := by
            have hcf : List.count c (List.filter (fun x => decide (x ≠ d)) st.clients)
                = List.count c st.clients :=
              List.count_filter (by simp [Ne.symm hdc])
            rw [hcf, hc]
          obtain ⟨h1, h2⟩ := ih { st with clients := st.clients.filter (fun x => x ≠ d) } c
            hrest hc2
          constructor
          · simp only [notifRun, notifStep, List.filter_append, List.map_append, broadcastsOf,
              List.filterMap_cons, List.filter_nil, List.map_nil, List.nil_append]
            simpa [broadcastsOf] using h1
          · exact h2
      | broadcast e =>
          have hfan : (((st.clients.map (fun c2 => (c2, e))).filter
              (fun p => p.1 = c)).map Prod.snd) = [e] := by
            have key : ∀ (l : List Nat),
                (((l.map (fun c2 => (c2, e))).filter (fun p => p.1 = c)).map Prod.snd)
                  = List.replicate (l.count c) e := by
              intro l
              induction l with
              | nil => rfl
              | cons x xs ihl =>
                  by_cases hx : x = c
                  · subst hx
                    simp [List.filter_cons, List.count_cons, ihl, List.replicate_succ]
                  · simp [List.filter_cons, List.count_cons, hx, ihl]
            rw [key st.clients, hc]
            rfl
          obtain ⟨h1, h2⟩ := ih ((notifStep st (NOp.broadcast e)).1) c hrest (by
            simp only [notifStep]
            split_ifs <;> exact hc)
          constructor
          · simp only [notifRun, notifStep, List.filter_append, List.map_append, broadcastsOf,
              List.filterMap_cons]
            rw [hfan]
            simp only [notifStep] at h1
            simpa [broadcastsOf] using h1
          · simp only [notifRun]
            simp only [notifStep] at h2 ⊢
            exact h2

/-- The retained status invariant: only started, progress or evaluation
events are retained, with the evaluation payload stripped. -/
lemma notifRun_lastStatus (ops : List NOp) :
    ∀ (st : NotifierState),
      (∀ ev, st.lastStatus = some ev → retainTypes.contains ev.type = true
        ∧ ev.evaluation = none) →
      ∀ ev, (notifRun st ops).1.lastStatus = some ev →
        retainTypes.contains ev.type = true ∧ ev.evaluation = none := by
  induction ops with
  | nil => intro st h ev hev; exact h ev hev
  | cons op rest ih =>
      intro st h ev hev
      cases op with
      | register d =>
          exact ih { st with clients := st.clients ++ [d] } h ev hev
      | unregister d =>
          exact ih { st with clients := st.clients.filter (fun x => x ≠ d) } h ev hev
      | broadcast e =>
          refine ih ((notifStep st (NOp.broadcast e)).1) ?_ ev hev
          intro ev2 hev2
          simp only [notifStep] at hev2
          by_cases hr : retainTypes.contains e.type = true
          · rw [if_pos hr] at hev2
            have hstrip := Option.some.inj hev2
            rw [← hstrip]
            exact ⟨hr, rfl⟩
          · rw [if_neg hr] at hev2
            exact h ev2 hev2

/-- Claim C10: a subscriber registering with the broadcaster synthetically
receives at most one event on connect — the retained last status event, which
exists only for types started, progress or evaluation and carries no
evaluation payload — and thereafter receives exactly the events broadcast
after its registration. -/
theorem C10_subscriber_replay (pre post : List NOp) (c : Nat)
    (hpre : ∀ op ∈ pre, mentionsClient c op = false)
    (hpost : ∀ op ∈ post, mentionsClient c op = false) :
    deliveredTo c (pre ++ NOp.register c :: post)
      = (match (notifRun initialNotifier pre).1.lastStatus with
          | some ev => [ev]
          | none => []) ++ broadcastsOf post
    ∧ (∀ ev, (notifRun initialNotifier pre).1.lastStatus = some ev →
        retainTypes.contains ev.type = true ∧ ev.evaluation = none) := by
  constructor
  · unfold deliveredTo
    rw [notifRun_append pre initialNotifier (NOp.register c :: post)]
    obtain ⟨hnil, habsent⟩ := notifRun_absent pre initialNotifier c hpre (by simp [initialNotifier])
    simp only [List.filter_append, List.map_append, hnil, List.nil_append]
    set st1 := (notifRun initialNotifier pre).1 with hst1
    have hcount : (st1.clients ++ [c]).count c = 1 := by
      rw [List.count_append]
      rw [List.count_eq_zero.mpr habsent]
      simp
    obtain ⟨hdel, _⟩ := notifRun_registered post { st1 with clients := st1.clients ++ [c] } c
      hpost hcount
    simp only [notifRun, notifStep, List.filter_append, List.map_append]
    rw [hdel]
    cases hls : st1.lastStatus with
    | none => simp
    | some ev => simp
  · intro ev hev
    exact notifRun_lastStatus pre initialNotifier
      (by intro ev2 h2; simp [initialNotifier] at h2) ev hev

/-- Witness for C10: after a broadcast evaluation event (payload 5), a late
subscriber 3 receives exactly the stripped retained event and then the later
progress broadcast. -/
theorem C10_subscriber_replay_witness :
    deliveredTo 3 ([NOp.broadcast ⟨"evaluation", 1, some 5⟩]
        ++ NOp.register 3 :: [NOp.broadcast ⟨"progress", 2, none⟩])
      = (match (notifRun initialNotifier [NOp.broadcast ⟨"evaluation", 1, some 5⟩]).1.lastStatus
          with
          | some ev => [ev]
          | none => []) ++ broadcastsOf [NOp.broadcast ⟨"progress", 2, none⟩]
    ∧ (∀ ev, (notifRun initialNotifier
          [NOp.broadcast ⟨"evaluation", 1, some 5⟩]).1.lastStatus = some ev →
        retainTypes.contains ev.type = true ∧ ev.evaluation = none) :=
  C10_subscriber_replay [NOp.broadcast ⟨"evaluation", 1, some 5⟩]
    [NOp.broadcast ⟨"progress", 2, none⟩] 3 (by decide) (by decide)

end DomainRisk
